import Mathlib

/-!
# The WebAssembly boundary of the Praat analysis engine

A shallow embedding of `src/cpp_wasm_yd/src/main.cpp`: the exported entry points
`load_sound_from_memory`, `load_sound`, `get_sound_samples`, `get_sound_time_axis`,
`get_sound_info`, `get_spectrum`, `get_spectrogram` and `get_pitch`, together with the two
file-level variables `g_currentSound` and `g_autoSound` they share.

Conventions of the embedding.

* Numbers.  `get_sound_info`, `get_sound_time_axis` and `get_spectrum` compute the numbers
  they return, and their arithmetic is IEEE 754: a value is an `IEEE` (a finite rational, an
  infinity or NaN), every `double` operation rounds its exact result to binary64
  (`toDouble`), and the cast `(float)` rounds to binary32 (`toFloat`), to nearest with ties
  to even.  The sign of zero is not recorded, and a zero divisor counts as `+0`.  Their output
  arrays are `Float32Array`s.
* A `double` member of a sound or of a spectrum (`xmin`, `xmax`, `dx`, `x1`, `z`) records the
  exact value of the expression assigned to it; the `double` that is stored is the rounding
  `toDouble` of that value, which the three functions above apply where they read the
  member.  So the sound built at line 32 from `(double)numSamples / sampleRate` and
  `1.0 / sampleRate` is read with `xmax` the `double` nearest to `numSamples / sampleRate`
  and `dx` the `double` nearest to `1 / sampleRate`.
* `get_sound_samples`, `get_spectrogram` and `get_pitch` relay stored values to chosen
  offsets; for them a `double` or `float` value is an exact rational (`ℚ`), the conversions
  between the two types are the identity, and the output arrays are `FloatArray`s.  A division
  by zero, which `load_sound_from_memory` performs when `sampleRate` is 0 and `load_sound`
  when a sound has `dx = 0`, has the value 0 of `ℚ` there.
* Praat's `integer` and C++ `int` are `Int`.  Every count that the source narrows with
  `(int)` is bounded by an `int` argument or by the addressable memory of the 32-bit target,
  so the narrowing is the identity.
* A `float*` argument is an array of cells addressed by offset, with a log of the offsets
  that were stored to.
* A smart pointer (`autoSound`, `autoSpectrum`, ...) is an `Option`; `none` is the null pointer.
* A call that may throw returns `Except CppException _`.
* The three analyzers, the file decoder, `snprintf` and `std::sqrt` are not part of
  `main.cpp`; the entry points take them as arguments.  `std_sqrt` is the correctly rounded
  square root that IEEE 754 prescribes for `std::sqrt` on `double`.
* Writes to `std::cout` and `std::cerr` are not modelled.
-/

namespace Parselmouth

/-! ## Output arrays and loops -/

/-- The memory behind a `float*` argument: `cell i` is the value of `p[i]`, and `stored`
lists, oldest first, the offsets that have been assigned through the pointer. -/
structure FloatArray where
  cell : Int → ℚ
  stored : List Int

/-- The assignment `p[i] = v`. -/
def FloatArray.store (a : FloatArray) (i : Int) (v : ℚ) : FloatArray :=
  { cell := fun j => if j = i then v else a.cell j
    stored := a.stored ++ [i] }

/-- The loop `for (integer i = lo; i < hi; ++i) body`, acting on the state `s`.
The source's `for (integer i = 1; i <= n; ++i)` is `forLoop 1 (n + 1)`. -/
def forLoop {σ : Type} (lo hi : Int) (body : Int → σ → σ) (s : σ) : σ :=
  (List.range (hi - lo).toNat).foldl (fun acc (k : Nat) => body (lo + (k : Int)) acc) s

/-! ## IEEE 754 arithmetic

Binary64 (`double`) has precision 53 and exponents from -1022 to 1023; binary32 (`float`) has
precision 24 and exponents from -126 to 127. -/

/-- A value of a C++ floating-point type: a finite number, `+∞`, `-∞` or NaN. -/
inductive IEEE where
  | finite (value : ℚ)
  | pinf
  | ninf
  | nan
deriving DecidableEq

/-- The literal `0`. -/
instance instOfNatIEEEZero : OfNat IEEE 0 := ⟨.finite 0⟩

/-- The literal `1`. -/
instance instOfNatIEEEOne : OfNat IEEE 1 := ⟨.finite 1⟩

/-- The order of the values that are not NaN: `-∞ ≤ a ≤ +∞`, and finite values as numbers. -/
def IEEE.le : IEEE → IEEE → Prop
  | .finite a, .finite b => a ≤ b
  | .finite _, .pinf => True
  | .ninf, .finite _ => True
  | .ninf, .ninf => True
  | .ninf, .pinf => True
  | .pinf, .pinf => True
  | _, _ => False

/-- The comparison `≤` of values; false when an operand is NaN. -/
instance instLEIEEE : LE IEEE := ⟨IEEE.le⟩

/-- The integer nearest to `m`, the even one of the two when `m` lies halfway. -/
def roundHalfEven (m : ℚ) : Int :=
  if m - ⌊m⌋ < 1 / 2 then ⌊m⌋
  else if 1 / 2 < m - ⌊m⌋ then ⌊m⌋ + 1
  else if ⌊m⌋ % 2 = 0 then ⌊m⌋ else ⌊m⌋ + 1

/-- The exponent of the last place of `x` in a format of precision `p` and least exponent
`emin`: `⌊log₂ |x|⌋ - (p - 1)`, and `emin - (p - 1)` for the subnormal numbers. -/
def quantum (p : Nat) (emin : Int) (x : ℚ) : Int :=
  max (Int.log 2 |x|) emin - ((p : Int) - 1)

/-- The number `x` rounded to nearest, ties to even, in a format of precision `p` and least
exponent `emin`, the exponent unbounded above. -/
def roundValue (p : Nat) (emin : Int) (x : ℚ) : ℚ :=
  (roundHalfEven (x / 2 ^ quantum p emin x) : ℚ) * 2 ^ quantum p emin x

/-- The number `x` rounded to the format of precision `p` and exponents `emin .. emax`: an
infinity when the rounded value reaches `2 ^ (emax + 1)`. -/
def roundTo (p : Nat) (emin emax : Int) (x : ℚ) : IEEE :=
  if 2 ^ (emax + 1) ≤ roundValue p emin x then .pinf
  else if roundValue p emin x ≤ -2 ^ (emax + 1) then .ninf
  else .finite (roundValue p emin x)

/-- The `double` nearest to `x`: the value of a `double` member that records `x`, and the
conversion `(double)i` of an integer. -/
def toDouble (x : ℚ) : IEEE := roundTo 53 (-1022) 1023 x

/-- The cast `(float)v` of a `double`. -/
def toFloat : IEEE → IEEE
  | .finite x => roundTo 24 (-126) 127 x
  | .pinf => .pinf
  | .ninf => .ninf
  | .nan => .nan

/-- The negation `-v`. -/
def negDouble : IEEE → IEEE
  | .finite x => .finite (-x)
  | .pinf => .ninf
  | .ninf => .pinf
  | .nan => .nan

/-- The sum `a + b` of two `double`s; `∞ - ∞` and sums with NaN are NaN. -/
def addDouble : IEEE → IEEE → IEEE
  | .finite a, .finite b => toDouble (a + b)
  | .finite _, .pinf => .pinf
  | .finite _, .ninf => .ninf
  | .pinf, .finite _ => .pinf
  | .pinf, .pinf => .pinf
  | .ninf, .finite _ => .ninf
  | .ninf, .ninf => .ninf
  | _, _ => .nan

/-- The difference `a - b` of two `double`s. -/
def subDouble (a b : IEEE) : IEEE := addDouble a (negDouble b)

/-- The product `a * b` of two `double`s; `0 * ∞` and products with NaN are NaN. -/
def mulDouble : IEEE → IEEE → IEEE
  | .finite a, .finite b => toDouble (a * b)
  | .finite a, .pinf => if a = 0 then .nan else if 0 < a then .pinf else .ninf
  | .finite a, .ninf => if a = 0 then .nan else if 0 < a then .ninf else .pinf
  | .pinf, .finite b => if b = 0 then .nan else if 0 < b then .pinf else .ninf
  | .ninf, .finite b => if b = 0 then .nan else if 0 < b then .ninf else .pinf
  | .pinf, .pinf => .pinf
  | .pinf, .ninf => .ninf
  | .ninf, .pinf => .ninf
  | .ninf, .ninf => .pinf
  | _, _ => .nan

/-- The quotient `a / b` of two `double`s; a non-zero number over zero is an infinity, and
`0 / 0`, `∞ / ∞` and quotients with NaN are NaN. -/
def divDouble : IEEE → IEEE → IEEE
  | .finite a, .finite b =>
    if b = 0 then (if a = 0 then .nan else if 0 < a then .pinf else .ninf)
    else toDouble (a / b)
  | .finite _, .pinf => .finite 0
  | .finite _, .ninf => .finite 0
  | .pinf, .finite b => if 0 ≤ b then .pinf else .ninf
  | .ninf, .finite b => if 0 ≤ b then .ninf else .pinf
  | _, _ => .nan

/-- The exponent of the last place of the square root of `x > 0`; `⌊log₂ √x⌋` is
`⌊⌊log₂ x⌋ / 2⌋`. -/
def sqrtQuantum (p : Nat) (emin : Int) (x : ℚ) : Int :=
  max (Int.log 2 x / 2) emin - ((p : Int) - 1)

/-- The integer part of the square root of `x > 0` in units of its last place. -/
def sqrtFloor (p : Nat) (emin : Int) (x : ℚ) : Int :=
  Nat.sqrt ⌊x / 2 ^ (2 * sqrtQuantum p emin x)⌋₊

/-- The square root of `x > 0` rounded to nearest, ties to even, the exponent unbounded
above: the root lies below, above or at `sqrtFloor + 1/2` units as its square does. -/
def sqrtValue (p : Nat) (emin : Int) (x : ℚ) : ℚ :=
  ((if x / 2 ^ (2 * sqrtQuantum p emin x) < ((sqrtFloor p emin x : ℚ) + 1 / 2) ^ 2 then
      sqrtFloor p emin x
    else if ((sqrtFloor p emin x : ℚ) + 1 / 2) ^ 2 < x / 2 ^ (2 * sqrtQuantum p emin x) then
      sqrtFloor p emin x + 1
    else if sqrtFloor p emin x % 2 = 0 then sqrtFloor p emin x
    else sqrtFloor p emin x + 1 : Int) : ℚ) * 2 ^ sqrtQuantum p emin x

/-- The function `std::sqrt` on `double`: the correctly rounded square root, NaN for a
negative number. -/
def std_sqrt : IEEE → IEEE
  | .finite x =>
    if x < 0 then .nan
    else if x = 0 then .finite 0
    else if 2 ^ ((1023 : Int) + 1) ≤ sqrtValue 53 (-1022) x then .pinf
    else .finite (sqrtValue 53 (-1022) x)
  | .pinf => .pinf
  | .ninf => .nan
  | .nan => .nan

/-- The memory behind a `float*` argument that receives computed numbers: `cell i` is the
binary32 value of `p[i]`, and `stored` lists, oldest first, the offsets that have been
assigned through the pointer. -/
structure Float32Array where
  cell : Int → IEEE
  stored : List Int

/-- The assignment `p[i] = v`. -/
def Float32Array.store (a : Float32Array) (i : Int) (v : IEEE) : Float32Array :=
  { cell := fun j => if j = i then v else a.cell j
    stored := a.stored ++ [i] }

/-! ## Exceptions -/

/-- What a `try` block of `main.cpp` can catch: a `MelderError` (with the text that
`Melder_getError` returns), a `std::exception` (with its `what()`), or anything else. -/
inductive CppException where
  | melderError (message : String)
  | stdException (what : String)
  | other

/-! ## The data model -/

/-- Modelled from the spec: the type `structSound` of `Sound.h` (not among the sources),
restricted to the members `main.cpp` reads or passes: the time domain `xmin .. xmax`, the
sample count `nx`, the sampling period `dx`, the time `x1` of the first sample, the channel
count `ny`, and the amplitudes `z[channel][sample]`, both indices 1-based. -/
structure Sound where
  xmin : ℚ
  xmax : ℚ
  nx : Int
  dx : ℚ
  x1 : ℚ
  ny : Int
  z : Int → Int → ℚ

/-- The owning pointer `autoSound`. -/
abbrev autoSound := Option Sound

/-- The assignment `sound->z[row][col] = v`. -/
def Sound.assign (sound : Sound) (row col : Int) (v : ℚ) : Sound :=
  { sound with z := fun r c => if r = row ∧ c = col then v else sound.z r c }

/-- Modelled from the spec: the function `Sound_create` of `Sound.h` (not among the sources).
The spec's `create` allocates a zero-initialized amplitude sequence and fails with
`InvalidArgument` if `sampleCount < 1` or `samplingRate <= 0`; the sampling rate of a sound
with sampling period `dx` is `1 / dx`, as `get_sound_info` computes it.  The arguments are
those of the call in `load_sound_from_memory`:
`Sound_create (numberOfChannels, xmin, xmax, nx, dx, x1)`. -/
def Sound_create (numberOfChannels : Int) (xmin xmax : ℚ) (nx : Int) (dx x1 : ℚ) :
    Except CppException autoSound :=
  if nx < 1 ∨ 1 / dx ≤ 0 then
    .error (.melderError "InvalidArgument")
  else
    .ok (some
      { xmin := xmin, xmax := xmax, nx := nx, dx := dx, x1 := x1, ny := numberOfChannels
        z := fun _ _ => 0 })

/-- Modelled from the spec: the type `structSpectrum` of `Spectrum.h` (not among the sources),
restricted to the members `get_spectrum` reads: `nx` bins, origin frequency `x1`, bin spacing
`dx`, and the complex values, `z[1][i]` the real part and `z[2][i]` the imaginary part of
bin `i` (1-based). -/
structure Spectrum where
  nx : Int
  x1 : ℚ
  dx : ℚ
  z : Int → Int → ℚ

/-- The owning pointer `autoSpectrum`. -/
abbrev autoSpectrum := Option Spectrum

/-- Modelled from the spec: the type `structSpectrogram` of `Spectrogram.h` (not among the
sources), restricted to the members `get_spectrogram` reads: `nx` time frames with origin and
step `(x1, dx)`, `ny` frequency bins with origin and step `(y1, dy)`, and the cells
`z[frequency bin][time frame]`, both indices 1-based. -/
structure Spectrogram where
  nx : Int
  x1 : ℚ
  dx : ℚ
  ny : Int
  y1 : ℚ
  dy : ℚ
  z : Int → Int → ℚ

/-- The owning pointer `autoSpectrogram`. -/
abbrev autoSpectrogram := Option Spectrogram

/-- Modelled from the spec: the enumeration `kSound_to_Spectrogram_windowShape` (not among
the sources), with the window shapes the spec lists. -/
inductive kSound_to_Spectrogram_windowShape where
  | GAUSSIAN
  | HANNING
  | HAMMING
  | BARTLETT
  | RECTANGULAR
  | TRIANGULAR
  | PARABOLIC

/-- Modelled from the spec: one pitch candidate `{frequency, strength}` of `Pitch.h` (not
among the sources). -/
structure Pitch_Candidate where
  frequency : ℚ
  strength : ℚ

/-- Modelled from the spec: one frame of a pitch contour (`Pitch.h`, not among the sources):
the number of candidates and the ranked candidates, `candidates[1]` the first-ranked one. -/
structure Pitch_Frame where
  nCandidates : Int
  candidates : Int → Pitch_Candidate

/-- Modelled from the spec: the type `structPitch` of `Pitch.h` (not among the sources),
restricted to the members `get_pitch` reads: `nx` frames, frame `i` (1-based) at time
`x1 + (i - 1) * dx`. -/
structure Pitch where
  nx : Int
  x1 : ℚ
  dx : ℚ
  frames : Int → Pitch_Frame

/-- The owning pointer `autoPitch`. -/
abbrev autoPitch := Option Pitch

/-! ## The program state -/

/-- The variables that outlive a call: the file-level `g_currentSound` and `g_autoSound`, and
the `static std::string result` of `load_sound`. -/
structure Globals where
  g_currentSound : Option Sound
  g_autoSound : autoSound
  result : String

/-- The state at program start: both sound variables null, the result string empty. -/
def Globals.initial : Globals :=
  { g_currentSound := none, g_autoSound := none, result := "" }

/-! ## Loading -/

/-- The function `load_sound_from_memory (samples, numSamples, sampleRate)` (lines 29-62).
`samples i` is `samples[i]`.  Returns the `int` result and the state after the call.  The
sound records the exact values of `(double)numSamples / sampleRate` and `1.0 / sampleRate`;
the `double`s that line 32 stores are their roundings, taken where the members are read. -/
def load_sound_from_memory (g : Globals) (samples : Int → ℚ) (numSamples : Int)
    (sampleRate : ℚ) : Int × Globals :=
  match Sound_create 1 0 ((numSamples : ℚ) / sampleRate) numSamples (1 / sampleRate) 0 with
  | .ok none => (0, g)
  | .ok (some sound) =>
    let sound := forLoop 1 (numSamples + 1)
      (fun i sound => sound.assign 1 i (samples (i - 1))) sound
    (1, { g with g_autoSound := some sound, g_currentSound := some sound })
  | .error (.melderError _) => (0, g)
  | .error (.stdException _) => (0, g)
  | .error .other => (0, g)

/-- The function `load_sound (filePath)` (lines 66-109).  `Sound_readFromSoundFile` stands for
the conversion of the path followed by the file decoder, and `snprintf` for the formatting
of the summary from `sampleRate`, `channels`, `samples` and `duration`.  Returns the text
and the state after the call. -/
def load_sound (Sound_readFromSoundFile : String → Except CppException autoSound)
    (snprintf : ℚ → Int → Int → ℚ → String) (g : Globals) (filePath : String) :
    String × Globals :=
  let result : String :=
    match Sound_readFromSoundFile filePath with
    | .ok none => "Error: Failed to load sound"
    | .ok (some sound) =>
      let sampleRate := 1 / sound.dx
      let channels := sound.ny
      let samples := sound.nx
      let duration := sound.xmax - sound.xmin
      snprintf sampleRate channels samples duration
    | .error (.melderError message) => "Praat error: " ++ message
    | .error (.stdException what) => "Error: " ++ what
    | .error .other => "Unknown error"
  (result, { g with result := result })

/-! ## Reading the loaded sound

Each `get` entry point takes the values behind its pointer arguments before the call and
returns the values behind them after it.  No operation inside the `try` blocks of
`get_sound_samples`, `get_sound_time_axis` and `get_sound_info` can throw, so their
`catch (...)` handlers are unreachable and have no counterpart here. -/

/-- The arguments of `get_sound_samples (outputBuffer, numSamples)`. -/
structure SamplesArgs where
  outputBuffer : FloatArray
  numSamples : Int

/-- The function `get_sound_samples` (lines 113-130). -/
def get_sound_samples (g : Globals) (a : SamplesArgs) : SamplesArgs :=
  match g.g_autoSound with
  | none => { a with numSamples := 0 }
  | some sound =>
    { numSamples := sound.nx
      outputBuffer := forLoop 1 (sound.nx + 1)
        (fun i outputBuffer => outputBuffer.store (i - 1) (sound.z 1 i)) a.outputBuffer }

/-- The arguments of `get_sound_time_axis (timeBuffer, numSamples)`. -/
structure TimeAxisArgs where
  timeBuffer : Float32Array
  numSamples : Int

/-- The function `get_sound_time_axis` (lines 134-153): `dx` and `xmin` are read as
`double`s, `i * dx` and `xmin + i * dx` are `double` operations on the converted `i`, and
the sum is cast to `float`. -/
def get_sound_time_axis (g : Globals) (a : TimeAxisArgs) : TimeAxisArgs :=
  match g.g_autoSound with
  | none => { a with numSamples := 0 }
  | some sound =>
    let dx := toDouble sound.dx
    let xmin := toDouble sound.xmin
    { numSamples := sound.nx
      timeBuffer := forLoop 0 sound.nx
        (fun i timeBuffer =>
          timeBuffer.store i (toFloat (addDouble xmin (mulDouble (toDouble (i : ℚ)) dx))))
        a.timeBuffer }

/-- The arguments of `get_sound_info (sampleRate, channels, samples, duration)`. -/
structure InfoArgs where
  sampleRate : IEEE
  channels : Int
  samples : Int
  duration : IEEE

/-- The function `get_sound_info` (lines 157-178): `1.0 / dx` and `xmax - xmin` are `double`
operations on the members read, and each result is cast to `float`. -/
def get_sound_info (g : Globals) (_a : InfoArgs) : InfoArgs :=
  match g.g_autoSound with
  | none => { sampleRate := 0, channels := 0, samples := 0, duration := 0 }
  | some sound =>
    { sampleRate := toFloat (divDouble 1 (toDouble sound.dx))
      channels := sound.ny
      samples := sound.nx
      duration := toFloat (subDouble (toDouble sound.xmax) (toDouble sound.xmin)) }

/-! ## The analyzers -/

/-- The arguments of `get_spectrum (frequencies, amplitudes, numBins)`. -/
structure SpectrumArgs where
  frequencies : Float32Array
  amplitudes : Float32Array
  numBins : Int

/-- The function `get_spectrum` (lines 182-215).  `Sound_to_Spectrum sound fast` is the
analyzer and `sqrt` is `std::sqrt`.  The frequency and the amplitude are computed in
`double` from the members read and cast to `float` where they are stored. -/
def get_spectrum (Sound_to_Spectrum : Sound → Bool → Except CppException autoSpectrum)
    (sqrt : IEEE → IEEE) (g : Globals) (a : SpectrumArgs) : SpectrumArgs :=
  let a := { a with numBins := 0 }
  match g.g_autoSound with
  | none => a
  | some sound =>
    match Sound_to_Spectrum sound true with
    | .error _ => { a with numBins := 0 }
    | .ok none => a
    | .ok (some spectrum) =>
      let a := { a with numBins := spectrum.nx }
      forLoop 1 (spectrum.nx + 1)
        (fun i a =>
          let freq := addDouble (toDouble spectrum.x1)
            (mulDouble (toDouble ((i - 1 : Int) : ℚ)) (toDouble spectrum.dx))
          let real := toDouble (spectrum.z 1 i)
          let imag := toDouble (spectrum.z 2 i)
          let amplitude := sqrt (addDouble (mulDouble real real) (mulDouble imag imag))
          { a with
            frequencies := a.frequencies.store (i - 1) (toFloat freq)
            amplitudes := a.amplitudes.store (i - 1) (toFloat amplitude) }) a

/-- The arguments of `get_spectrogram (times, frequencies, values, numTimes, numFreqs)`. -/
structure SpectrogramArgs where
  times : FloatArray
  frequencies : FloatArray
  values : FloatArray
  numTimes : Int
  numFreqs : Int

/-- The type of the analyzer `Sound_to_Spectrogram (sound, effectiveAnalysisWidth, fmax,
minimumTimeStep, minimumFreqStep, windowShape, maximumTimeOversampling,
maximumFreqOversampling)`. -/
abbrev SpectrogramAnalyzer :=
  Sound → ℚ → ℚ → ℚ → ℚ → kSound_to_Spectrogram_windowShape → ℚ → ℚ →
    Except CppException autoSpectrogram

/-- The function `get_spectrogram` (lines 219-269). -/
def get_spectrogram (Sound_to_Spectrogram : SpectrogramAnalyzer) (g : Globals)
    (a : SpectrogramArgs) : SpectrogramArgs :=
  let a := { a with numTimes := 0, numFreqs := 0 }
  match g.g_autoSound with
  | none => a
  | some sound =>
    match Sound_to_Spectrogram sound (3 / 100) 8000 0 0 .GAUSSIAN 1 1 with
    | .error _ => { a with numTimes := 0, numFreqs := 0 }
    | .ok none => a
    | .ok (some spectrogram) =>
      let times := forLoop 0 spectrogram.nx
        (fun i times => times.store i (spectrogram.x1 + i * spectrogram.dx)) a.times
      let frequencies := forLoop 0 spectrogram.ny
        (fun i frequencies => frequencies.store i (spectrogram.y1 + i * spectrogram.dy))
        a.frequencies
      let values := forLoop 0 spectrogram.nx
        (fun ix values => forLoop 0 spectrogram.ny
          (fun iy values =>
            values.store (iy * spectrogram.nx + ix) (spectrogram.z (iy + 1) (ix + 1)))
          values) a.values
      { times := times, frequencies := frequencies, values := values
        numTimes := spectrogram.nx, numFreqs := spectrogram.ny }

/-- The arguments of `get_pitch (times, values, numFrames)`. -/
structure PitchArgs where
  times : FloatArray
  values : FloatArray
  numFrames : Int

/-- The function `get_pitch` (lines 273-310).  `Sound_to_Pitch sound timeStep pitchFloor
pitchCeiling` is the pitch tracker. -/
def get_pitch (Sound_to_Pitch : Sound → ℚ → ℚ → ℚ → Except CppException autoPitch)
    (g : Globals) (a : PitchArgs) : PitchArgs :=
  let a := { a with numFrames := 0 }
  match g.g_autoSound with
  | none => a
  | some sound =>
    match Sound_to_Pitch sound (1 / 100) 75 600 with
    | .error _ => { a with numFrames := 0 }
    | .ok none => a
    | .ok (some pitch) =>
      let a := { a with numFrames := pitch.nx }
      forLoop 0 pitch.nx
        (fun i a =>
          let a := { a with times := a.times.store i (pitch.x1 + i * pitch.dx) }
          if (pitch.frames (i + 1)).nCandidates > 0 then
            { a with values := a.values.store i ((pitch.frames (i + 1)).candidates 1).frequency }
          else
            { a with values := a.values.store i 0 }) a

/-! ## Definitions used in the statements and proofs -/

/-- The values the loop variable of `for (integer i = lo; i < hi; ++i)` takes, in order. -/
def loopIndices (lo hi : Int) : List Int :=
  (List.range (hi - lo).toNat).map (fun (k : Nat) => lo + (k : Int))

/-- A sequence of assignments `p[i] = v`, carried out first to last. -/
def FloatArray.storeAll (a : FloatArray) (ws : List (Int × ℚ)) : FloatArray :=
  ws.foldl (fun acc w => acc.store w.1 w.2) a

/-- A sequence of assignments `p[i] = v`, carried out first to last. -/
def Float32Array.storeAll (a : Float32Array) (ws : List (Int × IEEE)) : Float32Array :=
  ws.foldl (fun acc w => acc.store w.1 w.2) a

/-! ## Concrete inputs -/

/-- Three samples `0.5, -0.25, 0.75`, as a caller's `samples` array. -/
def exampleSamples : Int → ℚ :=
  fun i => if i = 0 then 1 / 2 else if i = 1 then -1 / 4 else if i = 2 then 3 / 4 else 0

/-- The three samples as a sound at 8000 Hz. -/
def exampleSound : Sound :=
  { xmin := 0, xmax := 3 / 8000, nx := 3, dx := 1 / 8000, x1 := 0, ny := 1
    z := fun r c => if r = 1 ∧ 1 ≤ c ∧ c ≤ 3 then exampleSamples (c - 1) else 0 }

/-- A state in which `exampleSound` is loaded. -/
def exampleLoaded : Globals :=
  { g_currentSound := some exampleSound, g_autoSound := some exampleSound, result := "" }

/-- An output array the caller has filled with `-1` and not yet passed to any call. -/
def freshArray : FloatArray :=
  { cell := fun _ => -1, stored := [] }

/-- An output array for computed numbers that the caller has filled with `-1` and not yet
passed to any call. -/
def freshFloat32Array : Float32Array :=
  { cell := fun _ => .finite (-1), stored := [] }

/-- The sound that a successful `load_sound_from_memory (samples, numSamples, sampleRate)`
leaves in `g_autoSound`: what `Sound_create` returned, after the loop of line 40. -/
def loadedSound (samples : Int → ℚ) (numSamples : Int) (sampleRate : ℚ) : Sound :=
  forLoop 1 (numSamples + 1) (fun i sound => sound.assign 1 i (samples (i - 1)))
    { xmin := 0, xmax := (numSamples : ℚ) / sampleRate, nx := numSamples
      dx := 1 / sampleRate, x1 := 0, ny := 1, z := fun _ _ => 0 }

/-- A spectrum of two bins, `3 + 4i` at 0 Hz and `0` at 4000 Hz. -/
def exampleSpectrum : Spectrum :=
  { nx := 2, x1 := 0, dx := 4000
    z := fun r c => if r = 1 ∧ c = 1 then 3 else if r = 2 ∧ c = 1 then 4 else 0 }

/-- A spectrum of two bins of small magnitude, `2 ^ (-160)` and `2 ^ (-600)`, both of them
`double`s, with the bin spacing `16777217 = 2 ^ 24 + 1`, a `double` that is not a `float`. -/
def underflowSpectrum : Spectrum :=
  { nx := 2, x1 := 0, dx := 16777217
    z := fun r c =>
      if r = 1 ∧ c = 1 then 1 / 2 ^ 160 else if r = 1 ∧ c = 2 then 1 / 2 ^ 600 else 0 }

/-- A spectrogram of three time frames and two frequency bins, with cell
`z[iy][ix] = 10 * iy + ix`. -/
def exampleSpectrogram : Spectrogram :=
  { nx := 3, x1 := 1 / 100, dx := 1 / 500, ny := 2, y1 := 0, dy := 50
    z := fun iy ix => 10 * (iy : ℚ) + (ix : ℚ) }

/-- The stores the nested loop of `get_spectrogram` (lines 258-263) makes into `values`, in
order: for each time frame `ix`, for each frequency bin `iy`, the offset
`iy * nx + ix` and the value `z[iy + 1][ix + 1]`. -/
def spectrogramStores (spectrogram : Spectrogram) : List (Int × ℚ) :=
  (loopIndices 0 spectrogram.nx).flatMap (fun ix =>
    (loopIndices 0 spectrogram.ny).map (fun iy =>
      (iy * spectrogram.nx + ix, spectrogram.z (iy + 1) (ix + 1))))

/-! ## Loops -/

theorem forLoop_eq_foldl {σ : Type} (lo hi : Int) (body : Int → σ → σ) (s : σ) :
    forLoop lo hi body s = (loopIndices lo hi).foldl (fun acc i => body i acc) s := by
  unfold forLoop loopIndices
  rw [List.foldl_map]

theorem mem_loopIndices (lo hi i : Int) : i ∈ loopIndices lo hi ↔ lo ≤ i ∧ i < hi := by
  unfold loopIndices
  simp only [List.mem_map, List.mem_range]
  constructor
  · rintro ⟨k, hk, rfl⟩
    omega
  · rintro ⟨h1, h2⟩
    refine ⟨(i - lo).toNat, ?_, ?_⟩ <;> omega

theorem nodup_loopIndices (lo hi : Int) : (loopIndices lo hi).Nodup := by
  unfold loopIndices
  refine List.Nodup.map ?_ (List.nodup_range _)
  intro x y hxy
  simpa using hxy

theorem storeAll_nil (a : FloatArray) : a.storeAll [] = a := rfl

theorem storeAll_cons (a : FloatArray) (w : Int × ℚ) (ws : List (Int × ℚ)) :
    a.storeAll (w :: ws) = (a.store w.1 w.2).storeAll ws := rfl

theorem storeAll_append (a : FloatArray) (ws ws' : List (Int × ℚ)) :
    a.storeAll (ws ++ ws') = (a.storeAll ws).storeAll ws' := by
  unfold FloatArray.storeAll
  rw [List.foldl_append]

theorem storeAll_stored (a : FloatArray) (ws : List (Int × ℚ)) :
    (a.storeAll ws).stored = a.stored ++ ws.map Prod.fst := by
  induction ws generalizing a with
  | nil => simp [storeAll_nil]
  | cons w ws ih =>
    rw [storeAll_cons, ih]
    simp [FloatArray.store]

theorem storeAll_cell_of_not_mem (a : FloatArray) (ws : List (Int × ℚ)) (j : Int)
    (h : j ∉ ws.map Prod.fst) : (a.storeAll ws).cell j = a.cell j := by
  induction ws generalizing a with
  | nil => rfl
  | cons w ws ih =>
    rw [List.map_cons, List.mem_cons, not_or] at h
    rw [storeAll_cons, ih _ h.2]
    simp [FloatArray.store, h.1]

theorem storeAll_cell_of_mem (a : FloatArray) (ws : List (Int × ℚ)) (j : Int) (v : ℚ)
    (hnd : (ws.map Prod.fst).Nodup) (h : (j, v) ∈ ws) : (a.storeAll ws).cell j = v := by
  induction ws generalizing a with
  | nil => simp at h
  | cons w ws ih =>
    rw [List.map_cons, List.nodup_cons] at hnd
    rw [storeAll_cons]
    rcases List.mem_cons.1 h with h1 | h1
    · subst h1
      rw [storeAll_cell_of_not_mem _ _ _ hnd.1]
      simp [FloatArray.store]
    · exact ih _ hnd.2 h1

theorem forLoop_store (lo hi : Int) (f : Int → Int) (v : Int → ℚ) (a : FloatArray) :
    forLoop lo hi (fun i acc => acc.store (f i) (v i)) a
      = a.storeAll ((loopIndices lo hi).map (fun i => (f i, v i))) := by
  rw [forLoop_eq_foldl]
  unfold FloatArray.storeAll
  rw [List.foldl_map]

theorem forLoop_forLoop_store (lo hi lo' hi' : Int) (f : Int → Int → Int)
    (v : Int → Int → ℚ) (a : FloatArray) :
    forLoop lo hi (fun ix acc => forLoop lo' hi' (fun iy acc => acc.store (f ix iy) (v ix iy)) acc) a
      = a.storeAll ((loopIndices lo hi).flatMap
          (fun ix => (loopIndices lo' hi').map (fun iy => (f ix iy, v ix iy)))) := by
  rw [forLoop_eq_foldl]
  generalize loopIndices lo hi = l
  induction l generalizing a with
  | nil => rfl
  | cons x xs ih =>
    rw [List.foldl_cons, ih, List.flatMap_cons, storeAll_append, forLoop_store]

/-- A loop that stores `v i` at offset `i + c`: the cells it reaches. -/
theorem forLoop_store_cell (lo hi c : Int) (v : Int → ℚ) (a : FloatArray) (i : Int)
    (h1 : lo ≤ i) (h2 : i < hi) :
    (forLoop lo hi (fun i acc => acc.store (i + c) (v i)) a).cell (i + c) = v i := by
  rw [forLoop_store]
  apply storeAll_cell_of_mem
  · rw [List.map_map]
    refine List.Nodup.map ?_ (nodup_loopIndices lo hi)
    intro x y hxy
    simpa using hxy
  · exact List.mem_map.2 ⟨i, (mem_loopIndices lo hi i).2 ⟨h1, h2⟩, rfl⟩

/-- A loop that stores `v i` at offset `i + c`: the cells it leaves alone. -/
theorem forLoop_store_cell_out (lo hi c : Int) (v : Int → ℚ) (a : FloatArray) (j : Int)
    (h : ¬ (lo + c ≤ j ∧ j < hi + c)) :
    (forLoop lo hi (fun i acc => acc.store (i + c) (v i)) a).cell j = a.cell j := by
  rw [forLoop_store]
  apply storeAll_cell_of_not_mem
  rw [List.map_map]
  intro hj
  obtain ⟨i, hi', hij⟩ := List.mem_map.1 hj
  rw [mem_loopIndices] at hi'
  simp only [Function.comp] at hij
  omega

/-- A loop that stores `v i` at offset `i + c`: the offsets it stores to, in order. -/
theorem forLoop_store_stored (lo hi c : Int) (v : Int → ℚ) (a : FloatArray) :
    (forLoop lo hi (fun i acc => acc.store (i + c) (v i)) a).stored
      = a.stored ++ (loopIndices lo hi).map (fun i => i + c) := by
  rw [forLoop_store, storeAll_stored, List.map_map]
  rfl

/-! ## Rounding -/

theorem roundHalfEven_cases (m : ℚ) : roundHalfEven m = ⌊m⌋ ∨ roundHalfEven m = ⌊m⌋ + 1 := by
  unfold roundHalfEven
  split_ifs <;> simp

theorem floor_le_roundHalfEven (m : ℚ) : ⌊m⌋ ≤ roundHalfEven m := by
  rcases roundHalfEven_cases m with h | h <;> omega

theorem roundHalfEven_le (m : ℚ) : roundHalfEven m ≤ ⌊m⌋ + 1 := by
  rcases roundHalfEven_cases m with h | h <;> omega

theorem roundHalfEven_eq_of_near (m : ℚ) (N : Int) (h : |m - N| < 1 / 2) :
    roundHalfEven m = N := by
  rw [abs_lt] at h
  unfold roundHalfEven
  by_cases hN : (N : ℚ) ≤ m
  · have hf : ⌊m⌋ = N := by
      rw [Int.floor_eq_iff]
      constructor
      · exact hN
      · linarith
    rw [hf, if_pos (by linarith)]
  · have hf : ⌊m⌋ = N - 1 := by
      rw [Int.floor_eq_iff]
      push_cast
      constructor <;> linarith
    rw [hf]
    push_cast
    rw [if_neg (by linarith), if_pos (by linarith)]
    omega

theorem roundHalfEven_intCast (N : Int) : roundHalfEven (N : ℚ) = N :=
  roundHalfEven_eq_of_near _ N (by simp)

theorem roundHalfEven_tie (N : Int) :
    roundHalfEven ((N : ℚ) + 1 / 2) = if N % 2 = 0 then N else N + 1 := by
  have hf : ⌊(N : ℚ) + 1 / 2⌋ = N := by
    rw [Int.floor_eq_iff]
    constructor <;> linarith
  unfold roundHalfEven
  rw [hf, if_neg (by linarith), if_neg (by linarith)]

theorem abs_roundHalfEven_sub_le (m : ℚ) : |(roundHalfEven m : ℚ) - m| ≤ 1 / 2 := by
  have h1 := Int.floor_le m
  have h2 := Int.lt_floor_add_one m
  unfold roundHalfEven
  rw [abs_le]
  split_ifs with ha hb hc
  · constructor <;> linarith
  · push_cast
    constructor <;> linarith
  · constructor <;> linarith
  · push_cast
    constructor <;> linarith

theorem roundHalfEven_mono {m m' : ℚ} (h : m ≤ m') : roundHalfEven m ≤ roundHalfEven m' := by
  have hfl : ⌊m⌋ ≤ ⌊m'⌋ := Int.floor_le_floor h
  rcases lt_or_eq_of_le hfl with hlt | heq
  · have h1 := roundHalfEven_le m
    have h2 := floor_le_roundHalfEven m'
    omega
  · unfold roundHalfEven
    rw [← heq]
    by_cases ha : m - ⌊m⌋ < 1 / 2
    · rw [if_pos ha]
      split_ifs <;> omega
    · rw [if_neg ha]
      have ha' : ¬ (m' - ⌊m⌋ < 1 / 2) := by linarith
      rw [if_neg ha']
      by_cases hb : 1 / 2 < m - ⌊m⌋
      · have hb' : 1 / 2 < m' - ⌊m⌋ := by linarith
        rw [if_pos hb, if_pos hb']
      · rw [if_neg hb]
        split_ifs <;> omega

theorem log_eq_of_bounds (r : ℚ) (e : Int) (h1 : 2 ^ e ≤ r) (h2 : r < 2 ^ (e + 1)) :
    Int.log 2 r = e := by
  have hr : 0 < r := lt_of_lt_of_le (zpow_pos (by norm_num) e) h1
  have ha : e ≤ Int.log 2 r := by
    have := (Int.zpow_le_iff_le_log (b := 2) (by norm_num) hr (x := e)).1 (by exact_mod_cast h1)
    exact this
  have hb : Int.log 2 r < e + 1 := by
    have := (Int.lt_zpow_iff_log_lt (b := 2) (by norm_num) hr (x := e + 1)).1 (by exact_mod_cast h2)
    exact this
  omega

theorem zpow_log_le (r : ℚ) (hr : 0 < r) : (2 : ℚ) ^ Int.log 2 r ≤ r := by
  have := Int.zpow_log_le_self (b := 2) (by norm_num) hr
  exact_mod_cast this

theorem lt_zpow_log_succ (r : ℚ) : r < (2 : ℚ) ^ (Int.log 2 r + 1) := by
  have := Int.lt_zpow_succ_log_self (b := 2) (by norm_num) r
  exact_mod_cast this


/-! ### quantum -/

theorem quantum_ge (p : Nat) (emin : Int) (x : ℚ) : emin - ((p : Int) - 1) ≤ quantum p emin x := by
  unfold quantum
  have := le_max_right (Int.log 2 |x|) emin
  omega

theorem abs_lt_zpow_quantum (p : Nat) (emin : Int) (x : ℚ) :
    |x| < 2 ^ (quantum p emin x + p) := by
  have h1 := lt_zpow_log_succ |x|
  have h2 : Int.log 2 |x| + 1 ≤ quantum p emin x + p := by
    unfold quantum
    have := le_max_left (Int.log 2 |x|) emin
    omega
  exact lt_of_lt_of_le h1 (zpow_le_zpow_right₀ (by norm_num) h2)

theorem quantum_eq_of_bounds (p : Nat) (emin : Int) (x : ℚ) (e : Int)
    (h1 : 2 ^ e ≤ |x|) (h2 : |x| < 2 ^ (e + 1)) :
    quantum p emin x = max e emin - ((p : Int) - 1) := by
  unfold quantum
  rw [log_eq_of_bounds _ e h1 h2]

/-- scaled mantissa bound -/
theorem abs_scaled_lt (p : Nat) (emin : Int) (x : ℚ) :
    |x / 2 ^ quantum p emin x| < 2 ^ (p : Int) := by
  have hpos : (0 : ℚ) < 2 ^ quantum p emin x := zpow_pos (by norm_num) _
  rw [abs_div, abs_of_pos hpos, div_lt_iff₀ hpos, ← zpow_add₀ (by norm_num)]
  have := abs_lt_zpow_quantum p emin x
  rwa [add_comm] at this

theorem abs_roundValue_sub_le (p : Nat) (emin : Int) (x : ℚ) :
    |roundValue p emin x - x| ≤ 2 ^ quantum p emin x / 2 := by
  have hpos : (0 : ℚ) < 2 ^ quantum p emin x := zpow_pos (by norm_num) _
  have h := abs_roundHalfEven_sub_le (x / 2 ^ quantum p emin x)
  have e : roundValue p emin x - x
      = ((roundHalfEven (x / 2 ^ quantum p emin x) : ℚ) - x / 2 ^ quantum p emin x)
        * 2 ^ quantum p emin x := by
    unfold roundValue
    field_simp
  rw [e, abs_mul, abs_of_pos hpos]
  calc |(roundHalfEven (x / 2 ^ quantum p emin x) : ℚ) - x / 2 ^ quantum p emin x|
        * 2 ^ quantum p emin x
      ≤ 1 / 2 * 2 ^ quantum p emin x := mul_le_mul_of_nonneg_right h hpos.le
    _ = 2 ^ quantum p emin x / 2 := by ring

/-- evaluation of the rounding from a scaled integer that is near. -/
theorem roundValue_eq_of_near (p : Nat) (emin : Int) (x : ℚ) (q N : Int)
    (hq : quantum p emin x = q) (hN : |x / 2 ^ q - N| < 1 / 2) :
    roundValue p emin x = (N : ℚ) * 2 ^ q := by
  unfold roundValue
  rw [hq, roundHalfEven_eq_of_near _ N hN]

theorem roundValue_zero (p : Nat) (emin : Int) : roundValue p emin 0 = 0 := by
  unfold roundValue
  rw [zero_div, show ((0 : ℚ)) = ((0 : Int) : ℚ) by norm_num, roundHalfEven_intCast]
  simp

/-- a scaled integer with a quantum at least that of the format is left alone. -/
theorem roundValue_of_scaled_lt (p : Nat) (emin : Int) (N k : Int)
    (hk : emin - ((p : Int) - 1) ≤ k) (hN : |(N : ℚ)| < 2 ^ (p : Int)) :
    roundValue p emin ((N : ℚ) * 2 ^ k) = (N : ℚ) * 2 ^ k := by
  by_cases hN0 : N = 0
  · rw [hN0]
    simp [roundValue_zero]
  have hkpos : (0 : ℚ) < 2 ^ k := zpow_pos (by norm_num) _
  have hx : |(N : ℚ) * 2 ^ k| < 2 ^ (k + p) := by
    rw [abs_mul, abs_of_pos hkpos, zpow_add₀ (by norm_num), mul_comm]
    exact mul_lt_mul_of_pos_left hN hkpos
  have hxpos : 0 < |(N : ℚ) * 2 ^ k| := by
    rw [abs_pos]
    exact mul_ne_zero (by exact_mod_cast hN0) hkpos.ne'
  have hlog : Int.log 2 |(N : ℚ) * 2 ^ k| < k + p := by
    have := (Int.lt_zpow_iff_log_lt (b := 2) (by norm_num) hxpos (x := k + p)).1
      (by exact_mod_cast hx)
    exact this
  have hq : quantum p emin ((N : ℚ) * 2 ^ k) ≤ k := by
    unfold quantum
    have : max (Int.log 2 |(N : ℚ) * 2 ^ k|) emin ≤ k + p - 1 := max_le (by omega) (by omega)
    omega
  obtain ⟨d, hd⟩ : ∃ d : Nat, k = quantum p emin ((N : ℚ) * 2 ^ k) + d :=
    ⟨(k - quantum p emin ((N : ℚ) * 2 ^ k)).toNat, by omega⟩
  unfold roundValue
  generalize quantum p emin ((N : ℚ) * 2 ^ k) = Q at hd
  have hQpos : (0 : ℚ) < 2 ^ Q := zpow_pos (by norm_num) _
  have hk2 : (2 : ℚ) ^ k = 2 ^ Q * 2 ^ d := by
    rw [hd, zpow_add₀ (by norm_num), zpow_natCast]
  have hm : (N : ℚ) * 2 ^ k / 2 ^ Q = ((N * 2 ^ d : Int) : ℚ) := by
    rw [div_eq_iff hQpos.ne', hk2]
    push_cast
    ring
  rw [hm, roundHalfEven_intCast, hk2]
  push_cast
  ring

theorem roundValue_of_scaled (p : Nat) (emin : Int) (N k : Int) (hp : 1 ≤ p)
    (hk : emin - ((p : Int) - 1) ≤ k) (hN : |(N : ℚ)| ≤ 2 ^ (p : Int)) :
    roundValue p emin ((N : ℚ) * 2 ^ k) = (N : ℚ) * 2 ^ k := by
  rcases lt_or_eq_of_le hN with h | h
  · exact roundValue_of_scaled_lt p emin N k hk h
  · obtain ⟨p', rfl⟩ : ∃ p', p = p' + 1 := ⟨p - 1, by omega⟩
    have h2 : (2 : ℚ) ^ ((p' + 1 : Nat) : Int) = 2 * 2 ^ p' := by
      rw [zpow_natCast, pow_succ]
      ring
    have hpos : (0 : ℚ) < 2 ^ p' := by positivity
    have hM : ∃ M : Int, (N : ℚ) = 2 * (M : ℚ) ∧ |(M : ℚ)| = 2 ^ p' := by
      rcases abs_cases (N : ℚ) with ⟨h1, _⟩ | ⟨h1, _⟩
      · refine ⟨2 ^ p', ?_, ?_⟩
        · rw [← h1, h, h2]
          push_cast
          ring
        · push_cast
          exact abs_of_pos hpos
      · refine ⟨-(2 ^ p'), ?_, ?_⟩
        · have : (N : ℚ) = -(2 * 2 ^ p') := by rw [← h2, ← h, h1]; ring
          rw [this]
          push_cast
          ring
        · push_cast
          rw [abs_neg]
          exact abs_of_pos hpos
    obtain ⟨M, hM1, hM2⟩ := hM
    have e : (N : ℚ) * 2 ^ k = (M : ℚ) * 2 ^ (k + 1) := by
      rw [hM1, zpow_add₀ (by norm_num)]
      ring
    rw [e]
    refine roundValue_of_scaled_lt _ emin M (k + 1) (by omega) ?_
    rw [hM2, h2]
    linarith


theorem abs_roundHalfEven_scaled_le (p : Nat) (emin : Int) (x : ℚ) :
    |(roundHalfEven (x / 2 ^ quantum p emin x) : ℚ)| ≤ 2 ^ (p : Int) := by
  have h := abs_scaled_lt p emin x
  rw [abs_lt] at h
  rw [zpow_natCast] at h ⊢
  have hcast : ((2 : ℚ) ^ p) = (((2 ^ p : Nat) : Int) : ℚ) := by push_cast; rfl
  rw [hcast] at h ⊢
  have h1 : roundHalfEven (x / 2 ^ quantum p emin x) ≤ ((2 ^ p : Nat) : Int) := by
    have := (roundHalfEven_mono h.2.le)
    rwa [roundHalfEven_intCast] at this
  have h2 : -((2 ^ p : Nat) : Int) ≤ roundHalfEven (x / 2 ^ quantum p emin x) := by
    have := (roundHalfEven_mono h.1.le)
    rw [show (-(((2 ^ p : Nat) : Int) : ℚ)) = ((-((2 ^ p : Nat) : Int) : Int) : ℚ) by push_cast; rfl,
      roundHalfEven_intCast] at this
    exact this
  rw [abs_le]
  constructor
  · exact_mod_cast h2
  · exact_mod_cast h1

/-- rounding twice is rounding once. -/
theorem roundValue_idem (p : Nat) (emin : Int) (hp : 1 ≤ p) (x : ℚ) :
    roundValue p emin (roundValue p emin x) = roundValue p emin x := by
  have e : roundValue p emin x
      = (roundHalfEven (x / 2 ^ quantum p emin x) : ℚ) * 2 ^ quantum p emin x := rfl
  rw [e]
  exact roundValue_of_scaled p emin _ _ hp (quantum_ge p emin x)
    (abs_roundHalfEven_scaled_le p emin x)

theorem roundTo_idem (p : Nat) (emin emax : Int) (hp : 1 ≤ p) (x y : ℚ)
    (h : roundTo p emin emax x = .finite y) : roundTo p emin emax y = .finite y := by
  unfold roundTo at h
  split_ifs at h with h1 h2
  have hy : roundValue p emin x = y := by
    injection h
  have hy2 : roundValue p emin y = y := by
    rw [← hy]
    exact roundValue_idem p emin hp x
  unfold roundTo
  rw [hy2, ← hy, if_neg h1, if_neg h2]

theorem roundValue_nonneg (p : Nat) (emin : Int) (x : ℚ) (hx : 0 ≤ x) :
    0 ≤ roundValue p emin x := by
  unfold roundValue
  have hpos : (0 : ℚ) < 2 ^ quantum p emin x := zpow_pos (by norm_num) _
  have h0 : (0 : ℚ) ≤ x / 2 ^ quantum p emin x := div_nonneg hx hpos.le
  have := roundHalfEven_mono h0
  rw [show ((0 : ℚ)) = ((0 : Int) : ℚ) by norm_num, roundHalfEven_intCast] at this
  exact mul_nonneg (by exact_mod_cast this) hpos.le

/-- rounding is monotone on the non-negative numbers. -/
theorem roundValue_mono (p : Nat) (emin : Int) (hp : 1 ≤ p) (x y : ℚ) (hx : 0 ≤ x)
    (hxy : x ≤ y) : roundValue p emin x ≤ roundValue p emin y := by
  rcases eq_or_lt_of_le hx with h0 | hpos
  · rw [← h0, roundValue_zero]
    exact roundValue_nonneg p emin y (le_trans hx hxy)
  have hypos : 0 < y := lt_of_lt_of_le hpos hxy
  have hlog : Int.log 2 |x| ≤ Int.log 2 |y| := by
    rw [abs_of_pos hpos, abs_of_pos hypos]
    exact Int.log_mono_right hpos hxy
  have hq : quantum p emin x ≤ quantum p emin y := by
    unfold quantum
    have := max_le_max hlog (le_refl emin)
    omega
  rcases eq_or_lt_of_le hq with heq | hlt
  · unfold roundValue
    rw [← heq]
    have hqpos : (0 : ℚ) < 2 ^ quantum p emin x := zpow_pos (by norm_num) _
    have hm : x / 2 ^ quantum p emin x ≤ y / 2 ^ quantum p emin x :=
      div_le_div_of_nonneg_right hxy hqpos.le
    have := roundHalfEven_mono hm
    exact mul_le_mul_of_nonneg_right (by exact_mod_cast this) hqpos.le
  · -- the quantum grows: a power of two lies between the two roundings
    have hqx : (0 : ℚ) < 2 ^ quantum p emin x := zpow_pos (by norm_num) _
    have hqy : (0 : ℚ) < 2 ^ quantum p emin y := zpow_pos (by norm_num) _
    have h1 : roundValue p emin x ≤ 2 ^ (quantum p emin x + p) := by
      unfold roundValue
      rw [zpow_add₀ (by norm_num), mul_comm ((2 : ℚ) ^ quantum p emin x)]
      exact mul_le_mul_of_nonneg_right
        (le_trans (le_abs_self _) (abs_roundHalfEven_scaled_le p emin x)) hqx.le
    have hynormal : emin < Int.log 2 |y| ∧ quantum p emin y = Int.log 2 |y| - ((p : Int) - 1) := by
      have hge := quantum_ge p emin x
      unfold quantum at hlt hge ⊢
      rcases le_total (Int.log 2 |y|) emin with hc | hc
      · rw [max_eq_right hc] at hlt
        omega
      · rw [max_eq_left hc] at hlt ⊢
        constructor
        · omega
        · rfl
    have hylow : (2 : ℚ) ^ (quantum p emin y + ((p : Int) - 1)) ≤ y := by
      rw [hynormal.2]
      have := zpow_log_le |y| (abs_pos.2 hypos.ne')
      rw [abs_of_pos hypos] at this ⊢
      rw [show Int.log 2 y - ((p : Int) - 1) + ((p : Int) - 1) = Int.log 2 y by ring]
      exact this
    have h2 : (2 : ℚ) ^ (quantum p emin y + ((p : Int) - 1)) ≤ roundValue p emin y := by
      obtain ⟨p', rfl⟩ : ∃ p', p = p' + 1 := ⟨p - 1, by omega⟩
      have hm : (((2 ^ p' : Nat) : Int) : ℚ) ≤ y / 2 ^ quantum (p' + 1) emin y := by
        rw [le_div_iff₀ hqy]
        have e : (((2 ^ p' : Nat) : Int) : ℚ) * 2 ^ quantum (p' + 1) emin y
            = 2 ^ (quantum (p' + 1) emin y + (((p' + 1 : Nat) : Int) - 1)) := by
          rw [zpow_add₀ (by norm_num)]
          push_cast
          rw [show ((p' : Int) + 1 - 1) = (p' : Int) by ring, zpow_natCast]
          ring
        rw [e]
        exact hylow
      have := roundHalfEven_mono hm
      rw [roundHalfEven_intCast] at this
      unfold roundValue
      have e : (2 : ℚ) ^ (quantum (p' + 1) emin y + (((p' + 1 : Nat) : Int) - 1))
          = (((2 ^ p' : Nat) : Int) : ℚ) * 2 ^ quantum (p' + 1) emin y := by
        rw [zpow_add₀ (by norm_num)]
        push_cast
        rw [show ((p' : Int) + 1 - 1) = (p' : Int) by ring, zpow_natCast]
        ring
      rw [e]
      exact mul_le_mul_of_nonneg_right (by exact_mod_cast this) hqy.le
    have h3 : (2 : ℚ) ^ (quantum p emin x + p) ≤ 2 ^ (quantum p emin y + ((p : Int) - 1)) :=
      zpow_le_zpow_right₀ (by norm_num) (by omega)
    exact le_trans h1 (le_trans h3 h2)


theorem roundTo_finite (p : Nat) (emin emax : Int) (x : ℚ)
    (h1 : roundValue p emin x < 2 ^ (emax + 1)) (h2 : -2 ^ (emax + 1) < roundValue p emin x) :
    roundTo p emin emax x = .finite (roundValue p emin x) := by
  unfold roundTo
  rw [if_neg (not_le.2 h1), if_neg (not_le.2 h2)]

theorem roundValue_of_roundTo (p : Nat) (emin emax : Int) (x y : ℚ)
    (h : roundTo p emin emax x = .finite y) :
    roundValue p emin x = y ∧ y < 2 ^ (emax + 1) ∧ -2 ^ (emax + 1) < y := by
  unfold roundTo at h
  split_ifs at h with h1 h2
  have hy : roundValue p emin x = y := by
    injection h
  rw [← hy]
  exact ⟨rfl, not_le.1 h1, not_le.1 h2⟩

/-- relative error of a rounding in the normal range. -/
theorem abs_roundValue_sub_le_rel (p : Nat) (emin : Int) (x : ℚ) (hx : 2 ^ emin ≤ |x|) :
    |roundValue p emin x - x| ≤ |x| * 2 ^ (-(p : Int)) := by
  have hpos : 0 < |x| := lt_of_lt_of_le (zpow_pos (by norm_num) emin) hx
  have hlog : emin ≤ Int.log 2 |x| :=
    (Int.zpow_le_iff_le_log (b := 2) (by norm_num) hpos (x := emin)).1 (by exact_mod_cast hx)
  have hq : quantum p emin x = Int.log 2 |x| - ((p : Int) - 1) := by
    unfold quantum
    rw [max_eq_left hlog]
  have h := abs_roundValue_sub_le p emin x
  have e : (2 : ℚ) ^ quantum p emin x / 2 = 2 ^ Int.log 2 |x| * 2 ^ (-(p : Int)) := by
    rw [hq, show Int.log 2 |x| - ((p : Int) - 1) = Int.log 2 |x| + (-(p : Int)) + 1 by ring,
      zpow_add₀ (by norm_num), zpow_add₀ (by norm_num)]
    norm_num
  rw [e] at h
  exact le_trans h (mul_le_mul_of_nonneg_right (zpow_log_le _ hpos)
    (zpow_pos (by norm_num) _).le)

/-- a number close enough to a representable one rounds to it. -/
theorem roundValue_eq_of_close (p : Nat) (emin : Int) (x w : ℚ) (hx : 0 < x)
    (hrep : roundValue p emin x = x) (hw : |w - x| < 2 ^ (quantum p emin x - 2)) :
    roundValue p emin w = x := by
  have hqpos : (0 : ℚ) < 2 ^ quantum p emin x := zpow_pos (by norm_num) _
  have hq4 : (2 : ℚ) ^ (quantum p emin x - 2) = 2 ^ quantum p emin x / 4 := by
    rw [zpow_sub₀ (by norm_num)]
    norm_num
  rw [hq4, abs_lt] at hw
  -- the integer significand of `x`
  obtain ⟨N, hN⟩ : ∃ N : Int, x = (N : ℚ) * 2 ^ quantum p emin x :=
    ⟨roundHalfEven (x / 2 ^ quantum p emin x), hrep.symm⟩
  have hNpos : (0 : ℚ) < N := by
    by_contra hneg
    have : (N : ℚ) * 2 ^ quantum p emin x ≤ 0 :=
      mul_nonpos_of_nonpos_of_nonneg (not_lt.1 hneg) hqpos.le
    linarith
  have hN1 : (1 : ℚ) ≤ N := by
    have : (0 : Int) < N := by exact_mod_cast hNpos
    exact_mod_cast (show (1 : Int) ≤ N by omega)
  have hNlt : (N : ℚ) + 1 ≤ 2 ^ (p : Int) := by
    have h := abs_scaled_lt p emin x
    have hm : x / 2 ^ quantum p emin x = N := by
      rw [div_eq_iff hqpos.ne']
      exact hN
    rw [hm, abs_of_pos hNpos, zpow_natCast] at h
    rw [zpow_natCast]
    have h' : N < ((2 ^ p : Nat) : Int) := by
      have : (N : ℚ) < (((2 ^ p : Nat) : Int) : ℚ) := by push_cast; exact h
      exact_mod_cast this
    have h'' : N + 1 ≤ ((2 ^ p : Nat) : Int) := by omega
    have : ((N + 1 : Int) : ℚ) ≤ (((2 ^ p : Nat) : Int) : ℚ) := by exact_mod_cast h''
    push_cast at this
    exact this
  have hxge : 2 ^ quantum p emin x ≤ x :=
    calc (2 : ℚ) ^ quantum p emin x = 1 * 2 ^ quantum p emin x := (one_mul _).symm
      _ ≤ (N : ℚ) * 2 ^ quantum p emin x := mul_le_mul_of_nonneg_right hN1 hqpos.le
      _ = x := hN.symm
  have hm : x / 2 ^ quantum p emin x = N := (div_eq_iff hqpos.ne').2 hN
  have hwpos : 0 < w := by linarith
  -- the quantum of `w` is that of `x` or one less
  have hupper : quantum p emin w ≤ quantum p emin x := by
    have hwlt : |w| < 2 ^ (quantum p emin x + p) := by
      rw [abs_of_pos hwpos, zpow_add₀ (by norm_num)]
      have h1 : ((N : ℚ) + 1) * 2 ^ quantum p emin x
          ≤ 2 ^ (p : Int) * 2 ^ quantum p emin x :=
        mul_le_mul_of_nonneg_right hNlt hqpos.le
      have h2 : ((N : ℚ) + 1) * 2 ^ quantum p emin x = x + 2 ^ quantum p emin x := by
        rw [add_mul, one_mul, ← hN]
      linarith
    have hlog : Int.log 2 |w| < quantum p emin x + p :=
      (Int.lt_zpow_iff_log_lt (b := 2) (by norm_num) (abs_pos.2 hwpos.ne')
        (x := quantum p emin x + p)).1 (by exact_mod_cast hwlt)
    have hge := quantum_ge p emin x
    have : max (Int.log 2 |w|) emin ≤ quantum p emin x + p - 1 := max_le (by omega) (by omega)
    unfold quantum at this ⊢
    omega
  have hlower : quantum p emin x - 1 ≤ quantum p emin w := by
    rcases eq_or_lt_of_le (quantum_ge p emin x) with hmin | hnorm
    · have := quantum_ge p emin w
      omega
    · have hlogx : quantum p emin x = Int.log 2 |x| - ((p : Int) - 1) := by
        unfold quantum at hnorm ⊢
        rcases le_total (Int.log 2 |x|) emin with hc | hc
        · rw [max_eq_right hc] at hnorm
          omega
        · rw [max_eq_left hc]
      have hxlow : (2 : ℚ) ^ (quantum p emin x + ((p : Int) - 1)) ≤ x := by
        have := zpow_log_le |x| (abs_pos.2 hx.ne')
        rw [hlogx, show Int.log 2 |x| - ((p : Int) - 1) + ((p : Int) - 1) = Int.log 2 |x| by ring]
        rwa [abs_of_pos hx] at this ⊢
      have hwlow : (2 : ℚ) ^ (quantum p emin x + ((p : Int) - 1) - 1) ≤ |w| := by
        rw [abs_of_pos hwpos]
        have e1 : (2 : ℚ) ^ (quantum p emin x + ((p : Int) - 1))
            = 2 * 2 ^ (quantum p emin x + ((p : Int) - 1) - 1) := by
          rw [zpow_sub_one₀ (by norm_num)]
          ring
        have e2 : (2 : ℚ) ^ quantum p emin x / 4
            ≤ 2 ^ (quantum p emin x + ((p : Int) - 1) - 1) := by
          have h1 : (2 : ℚ) ^ (quantum p emin x - 2)
              ≤ 2 ^ (quantum p emin x + ((p : Int) - 1) - 1) :=
            zpow_le_zpow_right₀ (by norm_num) (by omega)
          rwa [hq4] at h1
        linarith
      have hlog : quantum p emin x + ((p : Int) - 1) - 1 ≤ Int.log 2 |w| :=
        (Int.zpow_le_iff_le_log (b := 2) (by norm_num) (abs_pos.2 hwpos.ne')
          (x := quantum p emin x + ((p : Int) - 1) - 1)).1 (by exact_mod_cast hwlow)
      have := le_max_left (Int.log 2 |w|) emin
      unfold quantum at this ⊢
      omega
  rcases eq_or_lt_of_le hupper with hsame | hless
  · rw [roundValue_eq_of_near p emin w (quantum p emin x) N hsame, ← hN]
    have e : w / 2 ^ quantum p emin x - N = (w - x) / 2 ^ quantum p emin x := by
      rw [sub_div, hm]
    rw [e, abs_div, abs_of_pos hqpos, div_lt_iff₀ hqpos, abs_lt]
    constructor <;> linarith
  · have hq1 : quantum p emin w = quantum p emin x - 1 := by omega
    have hq1pos : (0 : ℚ) < 2 ^ (quantum p emin x - 1) := zpow_pos (by norm_num) _
    have hhalf : (2 : ℚ) ^ quantum p emin x = 2 * 2 ^ (quantum p emin x - 1) := by
      rw [zpow_sub_one₀ (by norm_num)]
      ring
    have hx2 : x = ((2 * N : Int) : ℚ) * 2 ^ (quantum p emin x - 1) :=
      calc x = (N : ℚ) * 2 ^ quantum p emin x := hN
        _ = (N : ℚ) * (2 * 2 ^ (quantum p emin x - 1)) := by rw [← hhalf]
        _ = ((2 * N : Int) : ℚ) * 2 ^ (quantum p emin x - 1) := by push_cast; ring
    have hm2 : x / 2 ^ (quantum p emin x - 1) = ((2 * N : Int) : ℚ) :=
      (div_eq_iff hq1pos.ne').2 hx2
    rw [roundValue_eq_of_near p emin w (quantum p emin x - 1) (2 * N) hq1, ← hx2]
    have e : w / 2 ^ (quantum p emin x - 1) - ((2 * N : Int) : ℚ)
        = (w - x) / 2 ^ (quantum p emin x - 1) := by
      rw [sub_div, hm2]
    rw [e, abs_div, abs_of_pos hq1pos, div_lt_iff₀ hq1pos, abs_lt]
    constructor <;> linarith


theorem zpow_quantum_le_of_representable (p : Nat) (emin : Int) (x : ℚ) (hx : 0 < x)
    (hrep : roundValue p emin x = x) : 2 ^ quantum p emin x ≤ x := by
  have hqpos : (0 : ℚ) < 2 ^ quantum p emin x := zpow_pos (by norm_num) _
  obtain ⟨N, hN⟩ : ∃ N : Int, x = (N : ℚ) * 2 ^ quantum p emin x :=
    ⟨roundHalfEven (x / 2 ^ quantum p emin x), hrep.symm⟩
  have hNpos : (0 : ℚ) < N := by
    by_contra hneg
    have : (N : ℚ) * 2 ^ quantum p emin x ≤ 0 :=
      mul_nonpos_of_nonpos_of_nonneg (not_lt.1 hneg) hqpos.le
    linarith
  have hN1 : (1 : ℚ) ≤ N := by
    have : (0 : Int) < N := by exact_mod_cast hNpos
    exact_mod_cast (show (1 : Int) ≤ N by omega)
  calc (2 : ℚ) ^ quantum p emin x = 1 * 2 ^ quantum p emin x := (one_mul _).symm
    _ ≤ (N : ℚ) * 2 ^ quantum p emin x := mul_le_mul_of_nonneg_right hN1 hqpos.le
    _ = x := hN.symm

/-- For a positive `float` value `x`, the reciprocal of the reciprocal, both taken in
`double`, narrows back to `x`. -/
theorem toFloat_recip_recip (x : ℚ) (hx : 0 < x) (hf : toFloat (.finite x) = .finite x) :
    toFloat (divDouble 1 (toDouble (1 / x))) = .finite x := by
  obtain ⟨hrep, hxlt, _⟩ := roundValue_of_roundTo 24 (-126) 127 x x hf
  have hqge := quantum_ge 24 (-126) x
  have hxq := zpow_quantum_le_of_representable 24 (-126) x hx hrep
  have hxup := abs_lt_zpow_quantum 24 (-126) x
  rw [abs_of_pos hx] at hxup
  have hxlow : (2 : ℚ) ^ (-149 : Int) ≤ x :=
    le_trans (zpow_le_zpow_right₀ (by norm_num) (by push_cast at hqge; omega)) hxq
  -- the sampling period, `1 / x` in double
  have hupos : 0 < 1 / x := one_div_pos.2 hx
  have hxu : x * (1 / x) = 1 := mul_one_div_cancel hx.ne'
  have hulow : (2 : ℚ) ^ (-128 : Int) ≤ 1 / x := by
    rw [le_div_iff₀ hx]
    have : (2 : ℚ) ^ (-128 : Int) * x ≤ 2 ^ (-128 : Int) * 2 ^ ((127 : Int) + 1) :=
      mul_le_mul_of_nonneg_left hxlt.le (zpow_pos (by norm_num) _).le
    have e : (2 : ℚ) ^ (-128 : Int) * 2 ^ ((127 : Int) + 1) = 1 := by norm_num
    linarith
  have huup : 1 / x ≤ (2 : ℚ) ^ (149 : Int) := by
    rw [div_le_iff₀ hx]
    have : (2 : ℚ) ^ (149 : Int) * 2 ^ (-149 : Int) ≤ 2 ^ (149 : Int) * x :=
      mul_le_mul_of_nonneg_left hxlow (zpow_pos (by norm_num) _).le
    have e : (2 : ℚ) ^ (149 : Int) * 2 ^ (-149 : Int) = 1 := by norm_num
    linarith
  have he : (2 : ℚ) ^ (-((53 : Nat) : Int)) = 1 / 9007199254740992 := by norm_num
  have hy := abs_roundValue_sub_le_rel 53 (-1022) (1 / x) (by
    rw [abs_of_pos hupos]
    exact le_trans (zpow_le_zpow_right₀ (by norm_num) (by norm_num)) hulow)
  rw [abs_of_pos hupos, abs_le, he] at hy
  have hyD : toDouble (1 / x) = .finite (roundValue 53 (-1022) (1 / x)) := by
    apply roundTo_finite
    · have : (2 : ℚ) ^ (149 : Int) * 2 < 2 ^ ((1023 : Int) + 1) := by norm_num
      linarith [hy.2]
    · have : (0 : ℚ) < 2 ^ ((1023 : Int) + 1) := zpow_pos (by norm_num) _
      linarith [hy.1]
  rw [hyD]
  generalize roundValue 53 (-1022) (1 / x) = y at hy
  have hypos : 0 < y := by linarith [hy.1]
  have hdiv : divDouble 1 (.finite y) = toDouble (1 / y) := by
    show divDouble (.finite 1) (.finite y) = toDouble (1 / y)
    simp only [divDouble]
    rw [if_neg hypos.ne']
  rw [hdiv]
  -- the reciprocal of the sampling period, `1 / y` in double
  have hvpos : 0 < 1 / y := one_div_pos.2 hypos
  have hvup : 1 / y ≤ x * (1 + 2 / 9007199254740992) := by
    rw [div_le_iff₀ hypos]
    have h1 : x * (1 + 2 / 9007199254740992) * ((1 / x) * (1 - 1 / 9007199254740992))
        ≤ x * (1 + 2 / 9007199254740992) * y :=
      mul_le_mul_of_nonneg_left (by linarith [hy.1]) (by positivity)
    have h2 : x * (1 + 2 / 9007199254740992) * ((1 / x) * (1 - 1 / 9007199254740992))
        = (x * (1 / x)) * ((1 + 2 / 9007199254740992) * (1 - 1 / 9007199254740992)) := by ring
    rw [h2, hxu] at h1
    have h3 : (1 : ℚ) ≤ 1 * ((1 + 2 / 9007199254740992) * (1 - 1 / 9007199254740992)) := by
      norm_num
    linarith
  have hvlow : x * (1 - 1 / 9007199254740992) ≤ 1 / y := by
    rw [le_div_iff₀ hypos]
    have h1 : x * (1 - 1 / 9007199254740992) * y
        ≤ x * (1 - 1 / 9007199254740992) * ((1 / x) * (1 + 1 / 9007199254740992)) :=
      mul_le_mul_of_nonneg_left (by linarith [hy.2]) (by positivity)
    have h2 : x * (1 - 1 / 9007199254740992) * ((1 / x) * (1 + 1 / 9007199254740992))
        = (x * (1 / x)) * ((1 - 1 / 9007199254740992) * (1 + 1 / 9007199254740992)) := by ring
    rw [h2, hxu] at h1
    have h3 : 1 * ((1 - 1 / 9007199254740992) * (1 + 1 / 9007199254740992)) ≤ (1 : ℚ) := by
      norm_num
    linarith
  have hw := abs_roundValue_sub_le_rel 53 (-1022) (1 / y) (by
    rw [abs_of_pos hvpos]
    have h1 : (2 : ℚ) ^ (-149 : Int) * (1 - 1 / 9007199254740992)
        ≤ x * (1 - 1 / 9007199254740992) :=
      mul_le_mul_of_nonneg_right hxlow (by norm_num)
    have h2 : (2 : ℚ) ^ (-1022 : Int) ≤ 2 ^ (-149 : Int) * (1 - 1 / 9007199254740992) := by
      norm_num
    linarith)
  rw [abs_of_pos hvpos, abs_le, he] at hw
  have hx128 : x < 2 ^ (128 : Int) := by
    have : ((127 : Int) + 1) = 128 := by norm_num
    rwa [this] at hxlt
  have hwD : toDouble (1 / y) = .finite (roundValue 53 (-1022) (1 / y)) := by
    apply roundTo_finite
    · have h1 : (2 : ℚ) ^ (128 : Int) * 4 < 2 ^ ((1023 : Int) + 1) := by norm_num
      have h2 : 1 / y * (1 / 9007199254740992) ≤ 1 / y := by
        have : (1 / 9007199254740992 : ℚ) ≤ 1 := by norm_num
        exact mul_le_of_le_one_right hvpos.le this
      have h3 : x * (1 + 2 / 9007199254740992) ≤ x * 2 :=
        mul_le_mul_of_nonneg_left (by norm_num) hx.le
      linarith [hw.2]
    · have : (0 : ℚ) < 2 ^ ((1023 : Int) + 1) := zpow_pos (by norm_num) _
      have h2 : 1 / y * (1 / 9007199254740992) ≤ 1 / y := by
        have : (1 / 9007199254740992 : ℚ) ≤ 1 := by norm_num
        exact mul_le_of_le_one_right hvpos.le this
      linarith [hw.1]
  rw [hwD]
  generalize roundValue 53 (-1022) (1 / y) = w at hw
  -- `w` is within `x * 2 ^ (-51)` of `x`, less than a quarter of the float quantum of `x`
  have hclose : |w - x| < 2 ^ (quantum 24 (-126) x - 2) := by
    have hq : (2 : ℚ) ^ (quantum 24 (-126) x - 2)
        = 2 ^ (quantum 24 (-126) x + ((24 : Nat) : Int)) * 2 ^ (-26 : Int) := by
      rw [← zpow_add₀ (by norm_num)]
      congr 1
      push_cast
      ring
    have h26 : (2 : ℚ) ^ (-26 : Int) = 1 / 67108864 := by norm_num
    have hb : x * (1 / 67108864) < 2 ^ (quantum 24 (-126) x - 2) := by
      rw [hq, h26]
      exact mul_lt_mul_of_pos_right hxup (by norm_num)
    have hvx : 1 / y * (1 / 9007199254740992) ≤ x * (2 / 9007199254740992) := by
      have h1 : 1 / y * (1 / 9007199254740992)
          ≤ x * (1 + 2 / 9007199254740992) * (1 / 9007199254740992) :=
        mul_le_mul_of_nonneg_right hvup (by norm_num)
      have h2 : x * (1 + 2 / 9007199254740992) * (1 / 9007199254740992)
          ≤ x * (2 / 9007199254740992) := by
        have : (1 + 2 / 9007199254740992 : ℚ) * (1 / 9007199254740992)
            ≤ 2 / 9007199254740992 := by norm_num
        calc x * (1 + 2 / 9007199254740992) * (1 / 9007199254740992)
            = x * ((1 + 2 / 9007199254740992) * (1 / 9007199254740992)) := by ring
          _ ≤ x * (2 / 9007199254740992) := mul_le_mul_of_nonneg_left this hx.le
      linarith
    have hsmall : x * (4 / 9007199254740992) ≤ x * (1 / 67108864) :=
      mul_le_mul_of_nonneg_left (by norm_num) hx.le
    rw [abs_lt]
    constructor
    · linarith [hw.1]
    · linarith [hw.2]
  have hround := roundValue_eq_of_close 24 (-126) x w hx hrep hclose
  show roundTo 24 (-126) 127 w = .finite x
  rw [roundTo_finite 24 (-126) 127 w (by rw [hround]; exact hxlt)
    (by rw [hround]; linarith [zpow_pos (show (0 : ℚ) < 2 by norm_num) ((127 : Int) + 1)]),
    hround]


/-! ### evaluation at concrete numbers -/

theorem roundTo_zero (p : Nat) (emin emax : Int) : roundTo p emin emax 0 = .finite 0 := by
  have h : (0 : ℚ) < 2 ^ (emax + 1) := zpow_pos (by norm_num) _
  rw [roundTo_finite p emin emax 0 (by rw [roundValue_zero]; exact h)
    (by rw [roundValue_zero]; linarith), roundValue_zero]

theorem roundTo_of_scaled (p : Nat) (emin emax : Int) (x : ℚ) (N k : Int)
    (hx : x = (N : ℚ) * 2 ^ k) (hk : emin - ((p : Int) - 1) ≤ k)
    (hN : |(N : ℚ)| < 2 ^ (p : Int)) (h1 : x < 2 ^ (emax + 1)) (h2 : -2 ^ (emax + 1) < x) :
    roundTo p emin emax x = .finite x := by
  have hv : roundValue p emin x = x := by
    rw [hx]
    exact roundValue_of_scaled_lt p emin N k hk hN
  rw [roundTo_finite p emin emax x (by rw [hv]; exact h1) (by rw [hv]; exact h2), hv]

theorem roundTo_of_near (p : Nat) (emin emax : Int) (x v : ℚ) (e q N : Int)
    (h1 : 2 ^ e ≤ x) (h2 : x < 2 ^ (e + 1)) (hq : q = max e emin - ((p : Int) - 1))
    (hlo : (N : ℚ) - 1 / 2 < x / 2 ^ q) (hhi : x / 2 ^ q < (N : ℚ) + 1 / 2)
    (hv : v = (N : ℚ) * 2 ^ q) (hfin : v < 2 ^ (emax + 1)) (hfin' : -2 ^ (emax + 1) < v) :
    roundTo p emin emax x = .finite v := by
  have hx : 0 < x := lt_of_lt_of_le (zpow_pos (by norm_num) e) h1
  have hqx : quantum p emin x = q := by
    rw [hq]
    apply quantum_eq_of_bounds <;> rw [abs_of_pos hx] <;> assumption
  have hval : roundValue p emin x = v := by
    rw [hv]
    apply roundValue_eq_of_near p emin x q N hqx
    rw [abs_lt]
    constructor <;> linarith
  rw [roundTo_finite p emin emax x (by rw [hval]; exact hfin) (by rw [hval]; exact hfin'), hval]

theorem roundTo_of_tie_even (p : Nat) (emin emax : Int) (x v : ℚ) (e q N : Int)
    (h1 : 2 ^ e ≤ x) (h2 : x < 2 ^ (e + 1)) (hq : q = max e emin - ((p : Int) - 1))
    (hmid : x / 2 ^ q = (N : ℚ) + 1 / 2) (heven : N % 2 = 0)
    (hv : v = (N : ℚ) * 2 ^ q) (hfin : v < 2 ^ (emax + 1)) (hfin' : -2 ^ (emax + 1) < v) :
    roundTo p emin emax x = .finite v := by
  have hx : 0 < x := lt_of_lt_of_le (zpow_pos (by norm_num) e) h1
  have hqx : quantum p emin x = q := by
    rw [hq]
    apply quantum_eq_of_bounds <;> rw [abs_of_pos hx] <;> assumption
  have hval : roundValue p emin x = v := by
    unfold roundValue
    rw [hqx, hmid, roundHalfEven_tie, if_pos heven, hv]
  rw [roundTo_finite p emin emax x (by rw [hval]; exact hfin) (by rw [hval]; exact hfin'), hval]

/-! ### order -/

theorem IEEE.finite_le_finite (a b : ℚ) : (IEEE.finite a ≤ IEEE.finite b) ↔ a ≤ b := Iff.rfl

theorem IEEE.finite_le_pinf (a : ℚ) : IEEE.finite a ≤ IEEE.pinf := trivial

theorem IEEE.pinf_le_pinf : IEEE.pinf ≤ IEEE.pinf := trivial

theorem IEEE.zero_le_finite (a : ℚ) : ((0 : IEEE) ≤ IEEE.finite a) ↔ 0 ≤ a := Iff.rfl

theorem IEEE.zero_le_pinf : (0 : IEEE) ≤ IEEE.pinf := trivial

/-- A value that is at least 0 is a non-negative number or `+∞`. -/
theorem IEEE.zero_le_cases (v : IEEE) (h : (0 : IEEE) ≤ v) :
    (∃ a : ℚ, 0 ≤ a ∧ v = .finite a) ∨ v = .pinf := by
  cases v with
  | finite a => exact Or.inl ⟨a, h, rfl⟩
  | pinf => exact Or.inr rfl
  | ninf => exact absurd h id
  | nan => exact absurd h id

theorem roundTo_nonneg_cases (p : Nat) (emin emax : Int) (x : ℚ) (hx : 0 ≤ x) :
    (roundTo p emin emax x = .finite (roundValue p emin x)
      ∧ roundValue p emin x < 2 ^ (emax + 1))
    ∨ (roundTo p emin emax x = .pinf ∧ 2 ^ (emax + 1) ≤ roundValue p emin x) := by
  have h0 := roundValue_nonneg p emin x hx
  have hpos : (0 : ℚ) < 2 ^ (emax + 1) := zpow_pos (by norm_num) _
  by_cases h : 2 ^ (emax + 1) ≤ roundValue p emin x
  · right
    unfold roundTo
    rw [if_pos h]
    exact ⟨rfl, h⟩
  · left
    rw [roundTo_finite p emin emax x (not_le.1 h) (by linarith)]
    exact ⟨rfl, not_le.1 h⟩

theorem roundTo_nonneg (p : Nat) (emin emax : Int) (x : ℚ) (hx : 0 ≤ x) :
    (0 : IEEE) ≤ roundTo p emin emax x := by
  rcases roundTo_nonneg_cases p emin emax x hx with ⟨h, _⟩ | ⟨h, _⟩
  · rw [h]
    exact roundValue_nonneg p emin x hx
  · rw [h]
    trivial

/-- Rounding is monotone on the non-negative numbers, overflow included. -/
theorem roundTo_mono (p : Nat) (emin emax : Int) (hp : 1 ≤ p) (x y : ℚ) (hx : 0 ≤ x)
    (hxy : x ≤ y) : roundTo p emin emax x ≤ roundTo p emin emax y := by
  have hm := roundValue_mono p emin hp x y hx hxy
  rcases roundTo_nonneg_cases p emin emax x hx with ⟨h1, h1'⟩ | ⟨h1, h1'⟩ <;>
    rcases roundTo_nonneg_cases p emin emax y (le_trans hx hxy) with ⟨h2, h2'⟩ | ⟨h2, h2'⟩
  · rw [h1, h2]
    exact hm
  · rw [h1, h2]
    trivial
  · exact absurd (lt_of_le_of_lt (le_trans h1' hm) h2') (lt_irrefl _)
  · rw [h1, h2]
    trivial

theorem toDouble_ne_nan (x : ℚ) : toDouble x ≠ .nan := by
  unfold toDouble roundTo
  split_ifs <;> simp

/-! ### the operations -/

theorem toDouble_zero : toDouble 0 = .finite 0 := roundTo_zero 53 (-1022) 1023

theorem toFloat_zero : toFloat (.finite 0) = .finite 0 := roundTo_zero 24 (-126) 127

theorem toDouble_idem (x y : ℚ) (h : toDouble x = .finite y) : toDouble y = .finite y :=
  roundTo_idem 53 (-1022) 1023 (by norm_num) x y h

/-- Adding zero to a `double` leaves it as it is. -/
theorem addDouble_zero_right (x : ℚ) : addDouble (toDouble x) (.finite 0) = toDouble x := by
  cases h : toDouble x with
  | finite y =>
    show toDouble (y + 0) = .finite y
    rw [add_zero]
    exact toDouble_idem x y h
  | pinf => rfl
  | ninf => rfl
  | nan => rfl

theorem subDouble_zero_right (x : ℚ) : subDouble (toDouble x) (toDouble 0) = toDouble x := by
  rw [toDouble_zero]
  unfold subDouble negDouble
  simp only [neg_zero]
  exact addDouble_zero_right x

/-- Adding a product of `double`s to zero leaves the product as it is. -/
theorem addDouble_zero_mulDouble (x y : ℚ) :
    addDouble (.finite 0) (mulDouble (toDouble x) (toDouble y))
      = mulDouble (toDouble x) (toDouble y) := by
  cases hx : toDouble x <;> cases hy : toDouble y <;> simp only [mulDouble]
  case finite.finite a b =>
    cases h : toDouble (a * b) with
    | finite m =>
      show toDouble (0 + m) = .finite m
      rw [zero_add]
      exact toDouble_idem _ m h
    | pinf => rfl
    | ninf => rfl
    | nan => rfl
  all_goals first | rfl | (split_ifs <;> rfl)


/-! ### monotone steps of the time axis -/

theorem toDouble_mono (x y : ℚ) (hx : 0 ≤ x) (hxy : x ≤ y) :
    (0 : IEEE) ≤ toDouble x ∧ toDouble x ≤ toDouble y :=
  ⟨roundTo_nonneg 53 (-1022) 1023 x hx, roundTo_mono 53 (-1022) 1023 (by norm_num) x y hx hxy⟩

theorem mulDouble_mono (u v : IEEE) (y : ℚ) (hy : 0 < y) (hu : (0 : IEEE) ≤ u) (huv : u ≤ v) :
    (0 : IEEE) ≤ mulDouble u (.finite y) ∧ mulDouble u (.finite y) ≤ mulDouble v (.finite y) := by
  rcases IEEE.zero_le_cases u hu with ⟨a, ha, rfl⟩ | rfl
  · cases v with
    | finite b =>
      have hab : a ≤ b := huv
      exact toDouble_mono (a * y) (b * y) (mul_nonneg ha hy.le)
        (mul_le_mul_of_nonneg_right hab hy.le)
    | pinf =>
      refine ⟨roundTo_nonneg 53 (-1022) 1023 _ (mul_nonneg ha hy.le), ?_⟩
      simp only [mulDouble]
      rw [if_neg hy.ne', if_pos hy]
      rcases roundTo_nonneg_cases 53 (-1022) 1023 (a * y) (mul_nonneg ha hy.le)
        with ⟨h, _⟩ | ⟨h, _⟩
      · unfold toDouble
        rw [h]
        trivial
      · unfold toDouble
        rw [h]
        trivial
    | ninf => exact absurd huv id
    | nan => exact absurd huv id
  · cases v with
    | finite b => exact absurd huv id
    | pinf =>
      simp only [mulDouble]
      rw [if_neg hy.ne', if_pos hy]
      exact ⟨trivial, trivial⟩
    | ninf => exact absurd huv id
    | nan => exact absurd huv id

theorem addDouble_zero_mono (u v : IEEE) (hu : (0 : IEEE) ≤ u) (huv : u ≤ v) :
    (0 : IEEE) ≤ addDouble (.finite 0) u ∧ addDouble (.finite 0) u ≤ addDouble (.finite 0) v := by
  rcases IEEE.zero_le_cases u hu with ⟨a, ha, rfl⟩ | rfl
  · cases v with
    | finite b =>
      have hab : a ≤ b := huv
      exact toDouble_mono (0 + a) (0 + b) (by linarith) (by linarith)
    | pinf =>
      refine ⟨roundTo_nonneg 53 (-1022) 1023 _ (by linarith), ?_⟩
      show toDouble (0 + a) ≤ IEEE.pinf
      rcases roundTo_nonneg_cases 53 (-1022) 1023 (0 + a) (by linarith) with ⟨h, _⟩ | ⟨h, _⟩
      · unfold toDouble
        rw [h]
        trivial
      · unfold toDouble
        rw [h]
        trivial
    | ninf => exact absurd huv id
    | nan => exact absurd huv id
  · cases v with
    | finite b => exact absurd huv id
    | pinf => exact ⟨trivial, trivial⟩
    | ninf => exact absurd huv id
    | nan => exact absurd huv id

theorem toFloat_mono (u v : IEEE) (hu : (0 : IEEE) ≤ u) (huv : u ≤ v) :
    (0 : IEEE) ≤ toFloat u ∧ toFloat u ≤ toFloat v := by
  rcases IEEE.zero_le_cases u hu with ⟨a, ha, rfl⟩ | rfl
  · cases v with
    | finite b =>
      have hab : a ≤ b := huv
      exact ⟨roundTo_nonneg 24 (-126) 127 a ha,
        roundTo_mono 24 (-126) 127 (by norm_num) a b ha hab⟩
    | pinf =>
      refine ⟨roundTo_nonneg 24 (-126) 127 a ha, ?_⟩
      show roundTo 24 (-126) 127 a ≤ IEEE.pinf
      rcases roundTo_nonneg_cases 24 (-126) 127 a ha with ⟨h, _⟩ | ⟨h, _⟩
      · rw [h]
        trivial
      · rw [h]
        trivial
    | ninf => exact absurd huv id
    | nan => exact absurd huv id
  · cases v with
    | finite b => exact absurd huv id
    | pinf => exact ⟨trivial, trivial⟩
    | ninf => exact absurd huv id
    | nan => exact absurd huv id

/-- The sampling period of a positive `float` rate is a positive finite `double`. -/
theorem toDouble_recip_of_float (x : ℚ) (hx : 0 < x) (hf : toFloat (.finite x) = .finite x) :
    ∃ y : ℚ, 0 < y ∧ toDouble (1 / x) = .finite y := by
  obtain ⟨hrep, hxlt, _⟩ := roundValue_of_roundTo 24 (-126) 127 x x hf
  have hqge := quantum_ge 24 (-126) x
  have hxq := zpow_quantum_le_of_representable 24 (-126) x hx hrep
  have hxlow : (2 : ℚ) ^ (-149 : Int) ≤ x :=
    le_trans (zpow_le_zpow_right₀ (by norm_num) (by push_cast at hqge; omega)) hxq
  have hupos : 0 < 1 / x := one_div_pos.2 hx
  have hulow : (2 : ℚ) ^ (-128 : Int) ≤ 1 / x := by
    rw [le_div_iff₀ hx]
    have : (2 : ℚ) ^ (-128 : Int) * x ≤ 2 ^ (-128 : Int) * 2 ^ ((127 : Int) + 1) :=
      mul_le_mul_of_nonneg_left hxlt.le (zpow_pos (by norm_num) _).le
    have e : (2 : ℚ) ^ (-128 : Int) * 2 ^ ((127 : Int) + 1) = 1 := by norm_num
    linarith
  have huup : 1 / x ≤ (2 : ℚ) ^ (149 : Int) := by
    rw [div_le_iff₀ hx]
    have : (2 : ℚ) ^ (149 : Int) * 2 ^ (-149 : Int) ≤ 2 ^ (149 : Int) * x :=
      mul_le_mul_of_nonneg_left hxlow (zpow_pos (by norm_num) _).le
    have e : (2 : ℚ) ^ (149 : Int) * 2 ^ (-149 : Int) = 1 := by norm_num
    linarith
  have he : (2 : ℚ) ^ (-((53 : Nat) : Int)) = 1 / 9007199254740992 := by norm_num
  have hy := abs_roundValue_sub_le_rel 53 (-1022) (1 / x) (by
    rw [abs_of_pos hupos]
    exact le_trans (zpow_le_zpow_right₀ (by norm_num) (by norm_num)) hulow)
  rw [abs_of_pos hupos, abs_le, he] at hy
  refine ⟨roundValue 53 (-1022) (1 / x), by linarith [hy.1], ?_⟩
  apply roundTo_finite
  · have : (2 : ℚ) ^ (149 : Int) * 2 < 2 ^ ((1023 : Int) + 1) := by norm_num
    linarith [hy.2]
  · have : (0 : ℚ) < 2 ^ ((1023 : Int) + 1) := zpow_pos (by norm_num) _
    linarith [hy.1]

/-! ### the square root -/

theorem std_sqrt_zero : std_sqrt (.finite 0) = .finite 0 := by
  simp [std_sqrt]

theorem sqrtFloor_nonneg (p : Nat) (emin : Int) (x : ℚ) : 0 ≤ sqrtFloor p emin x :=
  Int.natCast_nonneg _

theorem sqrtValue_nonneg (p : Nat) (emin : Int) (x : ℚ) : 0 ≤ sqrtValue p emin x := by
  unfold sqrtValue
  have hpos : (0 : ℚ) < 2 ^ sqrtQuantum p emin x := zpow_pos (by norm_num) _
  refine mul_nonneg ?_ hpos.le
  have hf := sqrtFloor_nonneg p emin x
  split_ifs <;> norm_cast <;> omega

theorem std_sqrt_nonneg (v : IEEE) (h : (0 : IEEE) ≤ v) : (0 : IEEE) ≤ std_sqrt v := by
  rcases IEEE.zero_le_cases v h with ⟨a, ha, rfl⟩ | rfl
  · simp only [std_sqrt]
    rw [if_neg (not_lt.2 ha)]
    split_ifs
    · exact le_refl (0 : ℚ)
    · trivial
    · exact sqrtValue_nonneg 53 (-1022) a
  · trivial

/-- Evaluation of the rounded square root at a perfect square. -/
theorem std_sqrt_of_square (x r : ℚ) (e q : Int) (f : Nat)
    (h1 : 2 ^ e ≤ x) (h2 : x < 2 ^ (e + 1)) (hq : q = max (e / 2) (-1022) - 52)
    (hy : x / 2 ^ (2 * q) = ((f * f : Nat) : ℚ)) (hr : r = (f : ℚ) * 2 ^ q)
    (hfin : r < 2 ^ ((1023 : Int) + 1)) :
    std_sqrt (.finite x) = .finite r := by
  have hx : 0 < x := lt_of_lt_of_le (zpow_pos (by norm_num) e) h1
  have hsq : sqrtQuantum 53 (-1022) x = q := by
    unfold sqrtQuantum
    rw [log_eq_of_bounds x e h1 h2, hq]
    norm_num
  have hfl : sqrtFloor 53 (-1022) x = f := by
    unfold sqrtFloor
    rw [hsq, hy, Nat.floor_natCast, Nat.sqrt_eq]
  have hval : sqrtValue 53 (-1022) x = r := by
    unfold sqrtValue
    rw [hfl, hsq, hy, hr]
    have hlt : (((f * f : Nat)) : ℚ) < (((f : Int) : ℚ) + 1 / 2) ^ 2 := by
      push_cast
      have : (0 : ℚ) ≤ f := Nat.cast_nonneg f
      nlinarith
    rw [if_pos hlt]
    push_cast
    rfl
  simp only [std_sqrt]
  rw [if_neg (not_lt.2 hx.le), if_neg hx.ne', hval, if_neg (not_le.2 hfin)]

/-- A number in the normal range of `float`, rounded to `double` and narrowed to `float`, is
finite and within a relative error of `2 ^ (-23)`. -/
theorem toFloat_toDouble_rel (v : ℚ) (hlo : 2 ^ (-126 : Int) ≤ v) (hhi : v < 2 ^ (127 : Int)) :
    ∃ d : ℚ, toFloat (toDouble v) = .finite d ∧ |d - v| ≤ v * 2 ^ (-23 : Int) := by
  have hv : 0 < v := lt_of_lt_of_le (zpow_pos (by norm_num) _) hlo
  have he : (2 : ℚ) ^ (-((53 : Nat) : Int)) = 1 / 9007199254740992 := by norm_num
  have he' : (2 : ℚ) ^ (-((24 : Nat) : Int)) = 1 / 16777216 := by norm_num
  have h127 : (2 : ℚ) ^ (127 : Int) = 170141183460469231731687303715884105728 := by norm_num
  have h1 := abs_roundValue_sub_le_rel 53 (-1022) v (by
    rw [abs_of_pos hv]
    exact le_trans (zpow_le_zpow_right₀ (by norm_num) (by norm_num)) hlo)
  rw [abs_of_pos hv, abs_le, he] at h1
  have hlow : (2 : ℚ) ^ (-126 : Int) ≤ roundValue 53 (-1022) v := by
    have hm := roundValue_mono 53 (-1022) (by norm_num) (2 ^ (-126 : Int)) v
      (zpow_pos (by norm_num) _).le hlo
    have hfix : roundValue 53 (-1022) ((2 : ℚ) ^ (-126 : Int)) = 2 ^ (-126 : Int) := by
      have := roundValue_of_scaled_lt 53 (-1022) 1 (-126) (by norm_num) (by norm_num)
      simpa using this
    rwa [hfix] at hm
  have hD : toDouble v = .finite (roundValue 53 (-1022) v) := by
    apply roundTo_finite
    · have : (2 : ℚ) ^ (127 : Int) * 2 < 2 ^ ((1023 : Int) + 1) := by norm_num
      have h2 : v * (1 / 9007199254740992) ≤ v :=
        mul_le_of_le_one_right hv.le (by norm_num)
      linarith [h1.2]
    · have : (0 : ℚ) < 2 ^ ((1023 : Int) + 1) := zpow_pos (by norm_num) _
      have h2 : v * (1 / 9007199254740992) ≤ v :=
        mul_le_of_le_one_right hv.le (by norm_num)
      linarith [h1.1]
  rw [hD]
  generalize roundValue 53 (-1022) v = d at h1 hlow
  have hd : 0 < d := lt_of_lt_of_le (zpow_pos (by norm_num) _) hlow
  have h2 := abs_roundValue_sub_le_rel 24 (-126) d (by rw [abs_of_pos hd]; exact hlow)
  rw [abs_of_pos hd, abs_le, he'] at h2
  have hdv : d ≤ v * 2 := by
    have : v * (1 / 9007199254740992) ≤ v := mul_le_of_le_one_right hv.le (by norm_num)
    linarith [h1.2]
  have hd16 : d * (1 / 16777216) ≤ v * (1 / 16777216) + v * (1 / 9007199254740992) := by
    have h3 : d * (1 / 16777216) ≤ (v + v * (1 / 9007199254740992)) * (1 / 16777216) :=
      mul_le_mul_of_nonneg_right (by linarith [h1.2]) (by norm_num)
    have h4 : v * (1 / 9007199254740992) * (1 / 16777216) ≤ v * (1 / 9007199254740992) :=
      mul_le_of_le_one_right (mul_nonneg hv.le (by norm_num)) (by norm_num)
    linarith
  have hF : toFloat (.finite d) = .finite (roundValue 24 (-126) d) := by
    apply roundTo_finite
    · have : (2 : ℚ) ^ (127 : Int) * 2 = 2 ^ ((127 : Int) + 1) := by norm_num
      have h3 : v * (1 / 16777216) ≤ v * (1 / 4) :=
        mul_le_mul_of_nonneg_left (by norm_num) hv.le
      have h4 : v * (1 / 9007199254740992) ≤ v * (1 / 4) :=
        mul_le_mul_of_nonneg_left (by norm_num) hv.le
      linarith [h2.2]
    · have : (0 : ℚ) < 2 ^ ((127 : Int) + 1) := zpow_pos (by norm_num) _
      have h3 : d * (1 / 16777216) ≤ d := mul_le_of_le_one_right hd.le (by norm_num)
      linarith [h2.1]
  refine ⟨roundValue 24 (-126) d, hF, ?_⟩
  have h23 : (2 : ℚ) ^ (-23 : Int) = 1 / 8388608 := by norm_num
  have hsum : v * (1 / 16777216) + v * (1 / 9007199254740992) + v * (1 / 9007199254740992)
      ≤ v * (1 / 8388608) := by
    have : v * (1 / 9007199254740992) ≤ v * (1 / 33554432) :=
      mul_le_mul_of_nonneg_left (by norm_num) hv.le
    have e : v * (1 / 8388608) = v * (1 / 16777216) + v * (1 / 33554432) + v * (1 / 33554432) := by
      ring
    linarith
  rw [h23, abs_le]
  constructor
  · linarith [h2.1, h1.1]
  · linarith [h2.2, h1.2]

/-! ## Sequences of stores of computed numbers -/

theorem storeAll32_cons (a : Float32Array) (w : Int × IEEE) (ws : List (Int × IEEE)) :
    a.storeAll (w :: ws) = (a.store w.1 w.2).storeAll ws := rfl

theorem storeAll32_stored (a : Float32Array) (ws : List (Int × IEEE)) :
    (a.storeAll ws).stored = a.stored ++ ws.map Prod.fst := by
  induction ws generalizing a with
  | nil => simp [Float32Array.storeAll]
  | cons w ws ih =>
    rw [storeAll32_cons, ih]
    simp [Float32Array.store]

theorem storeAll32_cell_of_not_mem (a : Float32Array) (ws : List (Int × IEEE)) (j : Int)
    (h : j ∉ ws.map Prod.fst) : (a.storeAll ws).cell j = a.cell j := by
  induction ws generalizing a with
  | nil => rfl
  | cons w ws ih =>
    rw [List.map_cons, List.mem_cons, not_or] at h
    rw [storeAll32_cons, ih _ h.2]
    simp [Float32Array.store, h.1]

theorem storeAll32_cell_of_mem (a : Float32Array) (ws : List (Int × IEEE)) (j : Int)
    (v : IEEE) (hnd : (ws.map Prod.fst).Nodup) (h : (j, v) ∈ ws) :
    (a.storeAll ws).cell j = v := by
  induction ws generalizing a with
  | nil => simp at h
  | cons w ws ih =>
    rw [List.map_cons, List.nodup_cons] at hnd
    rw [storeAll32_cons]
    rcases List.mem_cons.1 h with h1 | h1
    · subst h1
      rw [storeAll32_cell_of_not_mem _ _ _ hnd.1]
      simp [Float32Array.store]
    · exact ih _ hnd.2 h1

theorem forLoop_store32 (lo hi : Int) (f : Int → Int) (v : Int → IEEE) (a : Float32Array) :
    forLoop lo hi (fun i acc => acc.store (f i) (v i)) a
      = a.storeAll ((loopIndices lo hi).map (fun i => (f i, v i))) := by
  rw [forLoop_eq_foldl]
  unfold Float32Array.storeAll
  rw [List.foldl_map]

/-- A loop that stores `v i` at offset `i + c`: the cells it reaches. -/
theorem forLoop_store32_cell (lo hi c : Int) (v : Int → IEEE) (a : Float32Array) (i : Int)
    (h1 : lo ≤ i) (h2 : i < hi) :
    (forLoop lo hi (fun i acc => acc.store (i + c) (v i)) a).cell (i + c) = v i := by
  rw [forLoop_store32]
  apply storeAll32_cell_of_mem
  · rw [List.map_map]
    refine List.Nodup.map ?_ (nodup_loopIndices lo hi)
    intro x y hxy
    simpa using hxy
  · exact List.mem_map.2 ⟨i, (mem_loopIndices lo hi i).2 ⟨h1, h2⟩, rfl⟩

/-- A loop that stores `v i` at offset `i + c`: the cells it leaves alone. -/
theorem forLoop_store32_cell_out (lo hi c : Int) (v : Int → IEEE) (a : Float32Array)
    (j : Int) (h : ¬ (lo + c ≤ j ∧ j < hi + c)) :
    (forLoop lo hi (fun i acc => acc.store (i + c) (v i)) a).cell j = a.cell j := by
  rw [forLoop_store32]
  apply storeAll32_cell_of_not_mem
  rw [List.map_map]
  intro hj
  obtain ⟨i, hi', hij⟩ := List.mem_map.1 hj
  rw [mem_loopIndices] at hi'
  simp only [Function.comp] at hij
  omega

/-- A loop that stores `v i` at offset `i + c`: the offsets it stores to, in order. -/
theorem forLoop_store32_stored (lo hi c : Int) (v : Int → IEEE) (a : Float32Array) :
    (forLoop lo hi (fun i acc => acc.store (i + c) (v i)) a).stored
      = a.stored ++ (loopIndices lo hi).map (fun i => i + c) := by
  rw [forLoop_store32, storeAll32_stored, List.map_map]
  rfl

/-! ## No sound loaded -/

/-- C2. With no buffer loaded (`g_autoSound` null), `get_sound_samples`,
`get_sound_time_axis`, `get_spectrum`, `get_spectrogram` and `get_pitch` set each of their
output counts to 0 and leave every output array as it was (no cell changed, no store made),
whatever the analyzers are; `get_sound_info` sets all four of its outputs to 0. -/
theorem get_without_sound
    (Sound_to_Spectrum : Sound → Bool → Except CppException autoSpectrum) (sqrt : IEEE → IEEE)
    (Sound_to_Spectrogram : SpectrogramAnalyzer)
    (Sound_to_Pitch : Sound → ℚ → ℚ → ℚ → Except CppException autoPitch)
    (g : Globals) (h : g.g_autoSound = none)
    (sa : SamplesArgs) (ta : TimeAxisArgs) (ia : InfoArgs) (ca : SpectrumArgs)
    (ga : SpectrogramArgs) (pa : PitchArgs) :
    get_sound_samples g sa = { outputBuffer := sa.outputBuffer, numSamples := 0 } ∧
    get_sound_time_axis g ta = { timeBuffer := ta.timeBuffer, numSamples := 0 } ∧
    get_spectrum Sound_to_Spectrum sqrt g ca
      = { frequencies := ca.frequencies, amplitudes := ca.amplitudes, numBins := 0 } ∧
    get_spectrogram Sound_to_Spectrogram g ga
      = { times := ga.times, frequencies := ga.frequencies, values := ga.values
          numTimes := 0, numFreqs := 0 } ∧
    get_pitch Sound_to_Pitch g pa
      = { times := pa.times, values := pa.values, numFrames := 0 } ∧
    get_sound_info g ia = { sampleRate := 0, channels := 0, samples := 0, duration := 0 } := by
  unfold get_sound_samples get_sound_time_axis get_spectrum get_spectrogram get_pitch
    get_sound_info
  rw [h]
  exact ⟨rfl, rfl, rfl, rfl, rfl, rfl⟩

/-- C2, at the initial state with untouched output arrays. -/
theorem get_without_sound_witness :
    Globals.initial.g_autoSound = none ∧
    get_sound_samples Globals.initial { outputBuffer := freshArray, numSamples := 7 }
      = { outputBuffer := freshArray, numSamples := 0 } :=
  ⟨rfl, (get_without_sound (fun _ _ => .error .other) id
    (fun _ _ _ _ _ _ _ _ => .error .other) (fun _ _ _ _ => .error .other)
    Globals.initial rfl { outputBuffer := freshArray, numSamples := 7 }
    { timeBuffer := freshFloat32Array, numSamples := 7 }
    { sampleRate := 1, channels := 1, samples := 1, duration := 1 }
    { frequencies := freshFloat32Array, amplitudes := freshFloat32Array, numBins := 7 }
    { times := freshArray, frequencies := freshArray, values := freshArray
      numTimes := 7, numFreqs := 7 }
    { times := freshArray, values := freshArray, numFrames := 7 }).1⟩

/-! ## Loading from memory -/

theorem Sound_create_ok (numberOfChannels : Int) (xmin xmax : ℚ) (nx : Int) (dx x1 : ℚ)
    (hn : 1 ≤ nx) (hd : 0 < dx) :
    Sound_create numberOfChannels xmin xmax nx dx x1
      = .ok (some { xmin := xmin, xmax := xmax, nx := nx, dx := dx, x1 := x1
                    ny := numberOfChannels, z := fun _ _ => 0 }) := by
  unfold Sound_create
  have h1 : ¬ (nx < 1 ∨ 1 / dx ≤ 0) := by
    rw [not_or]
    exact ⟨by omega, not_le.2 (one_div_pos.2 hd)⟩
  rw [if_neg h1]

theorem Sound_create_error (numberOfChannels : Int) (xmin xmax : ℚ) (nx : Int) (dx x1 : ℚ)
    (h : nx < 1 ∨ dx ≤ 0) :
    Sound_create numberOfChannels xmin xmax nx dx x1
      = .error (.melderError "InvalidArgument") := by
  unfold Sound_create
  have h1 : nx < 1 ∨ 1 / dx ≤ 0 := by
    rcases h with h | h
    · exact Or.inl h
    · exact Or.inr (one_div_nonpos.2 h)
  rw [if_pos h1]

theorem load_sound_from_memory_ok (g : Globals) (samples : Int → ℚ) (numSamples : Int)
    (sampleRate : ℚ) (hn : 1 ≤ numSamples) (hr : 0 < sampleRate) :
    load_sound_from_memory g samples numSamples sampleRate
      = (1, { g with
              g_autoSound := some (loadedSound samples numSamples sampleRate)
              g_currentSound := some (loadedSound samples numSamples sampleRate) }) := by
  unfold load_sound_from_memory
  rw [Sound_create_ok _ _ _ _ _ _ hn (one_div_pos.2 hr)]
  rfl

theorem load_sound_from_memory_failed (g : Globals) (samples : Int → ℚ) (numSamples : Int)
    (sampleRate : ℚ) (h : numSamples < 1 ∨ sampleRate ≤ 0) :
    load_sound_from_memory g samples numSamples sampleRate = (0, g) := by
  unfold load_sound_from_memory
  rw [Sound_create_error]
  rcases h with h | h
  · exact Or.inl h
  · exact Or.inr (one_div_nonpos.2 h)

theorem foldl_assign (v : Int → ℚ) (l : List Int) (sound : Sound) :
    l.foldl (fun acc i => acc.assign 1 i (v i)) sound
      = { sound with z := fun r c => if r = 1 ∧ c ∈ l then v c else sound.z r c } := by
  induction l generalizing sound with
  | nil => simp
  | cons x xs ih =>
    rw [List.foldl_cons, ih]
    simp only [Sound.assign, Sound.mk.injEq, true_and]
    funext r c
    by_cases h1 : r = 1 ∧ c ∈ xs
    · have h2 : r = 1 ∧ c ∈ x :: xs := ⟨h1.1, List.mem_cons_of_mem _ h1.2⟩
      rw [if_pos h1, if_pos h2]
    · rw [if_neg h1]
      by_cases h3 : r = 1 ∧ c = x
      · have h2 : r = 1 ∧ c ∈ x :: xs := ⟨h3.1, by rw [h3.2]; exact List.mem_cons_self _ _⟩
        rw [if_pos h3, if_pos h2, h3.2]
      · have h2 : ¬ (r = 1 ∧ c ∈ x :: xs) := by
          rintro ⟨hr, hc⟩
          rcases List.mem_cons.1 hc with hc | hc
          · exact h3 ⟨hr, hc⟩
          · exact h1 ⟨hr, hc⟩
        rw [if_neg h3, if_neg h2]

/-- The sound left by a successful load, field by field. -/
theorem loadedSound_eq (samples : Int → ℚ) (numSamples : Int) (sampleRate : ℚ) :
    loadedSound samples numSamples sampleRate
      = { xmin := 0, xmax := (numSamples : ℚ) / sampleRate, nx := numSamples
          dx := 1 / sampleRate, x1 := 0, ny := 1
          z := fun r c => if r = 1 ∧ 1 ≤ c ∧ c ≤ numSamples then samples (c - 1) else 0 } := by
  unfold loadedSound
  rw [forLoop_eq_foldl, foldl_assign]
  simp only [Sound.mk.injEq, true_and]
  funext r c
  simp only [mem_loopIndices, Int.lt_add_one_iff]

/-- C3. `load_sound_from_memory` returns 0 whenever `sampleRate <= 0` or `numSamples < 1`,
it returns 1 only for `numSamples >= 1` and `sampleRate > 0`, and for those it does
return 1. -/
theorem load_sound_from_memory_result (g : Globals) (samples : Int → ℚ) (numSamples : Int)
    (sampleRate : ℚ) :
    ((sampleRate ≤ 0 ∨ numSamples < 1) →
      (load_sound_from_memory g samples numSamples sampleRate).1 = 0) ∧
    ((load_sound_from_memory g samples numSamples sampleRate).1 = 1 →
      1 ≤ numSamples ∧ 0 < sampleRate) ∧
    ((1 ≤ numSamples ∧ 0 < sampleRate) →
      (load_sound_from_memory g samples numSamples sampleRate).1 = 1) := by
  by_cases h : 1 ≤ numSamples ∧ 0 < sampleRate
  · have hr : (load_sound_from_memory g samples numSamples sampleRate).1 = 1 := by
      rw [load_sound_from_memory_ok g samples numSamples sampleRate h.1 h.2]
    refine ⟨fun h' => ?_, fun _ => h, fun _ => hr⟩
    rcases h' with h' | h'
    · exact absurd h.2 (not_lt.2 h')
    · omega
  · have hr : (load_sound_from_memory g samples numSamples sampleRate).1 = 0 := by
      rw [load_sound_from_memory_failed]
      rw [not_and_or, not_le, not_lt] at h
      exact h
    refine ⟨fun _ => hr, fun h' => ?_, fun h' => absurd h' h⟩
    rw [hr] at h'
    exact absurd h' (by decide)

/-- C3, at an empty sequence, at a zero rate, and at three samples at 8000 Hz. -/
theorem load_sound_from_memory_result_witness :
    (load_sound_from_memory Globals.initial exampleSamples 0 8000).1 = 0 ∧
    (load_sound_from_memory Globals.initial exampleSamples 3 0).1 = 0 ∧
    (load_sound_from_memory Globals.initial exampleSamples 3 8000).1 = 1 :=
  ⟨(load_sound_from_memory_result Globals.initial exampleSamples 0 8000).1
      (Or.inr (by decide)),
    (load_sound_from_memory_result Globals.initial exampleSamples 3 0).1
      (Or.inl (le_refl 0)),
    (load_sound_from_memory_result Globals.initial exampleSamples 3 8000).2.2
      ⟨by decide, by norm_num⟩⟩

/-- What `get_sound_info` returns after a successful load: the sampling rate from
`dx = 1 / rate` and the duration from `xmax = n / rate` and `xmin = 0`, each member read as
a `double`. -/
theorem get_sound_info_after_load (g : Globals) (samples : Int → ℚ) (n : Int) (rate : ℚ)
    (ia : InfoArgs) (hn : 1 ≤ n) (hr : 0 < rate) :
    get_sound_info (load_sound_from_memory g samples n rate).2 ia
      = { sampleRate := toFloat (divDouble 1 (toDouble (1 / rate)))
          channels := 1
          samples := n
          duration := toFloat (subDouble (toDouble ((n : ℚ) / rate)) (toDouble 0)) } := by
  rw [load_sound_from_memory_ok g samples n rate hn hr]
  simp only [get_sound_info, loadedSound_eq]

/-- C4, as amended. For `n >= 1` and a positive `float` value `rate`,
`load_sound_from_memory` of `n` samples at `rate` succeeds, and `get_sound_info` then reports
`samples = n`, `channels = 1`, `sampleRate = rate` (computed as `(float)(1.0 / dx)` with `dx`
the `double` nearest to `1 / rate`), and `duration = (float)(xmax - xmin)` with `xmin = 0` and
`xmax` the `double` nearest to `n / rate`: the duration is `n / rate` rounded to `double` and
then to `float`.  It is within a relative error of `2 ^ (-23)` of `n / rate` when `n / rate`
lies in the normal range of `float`, and it is `n / rate` when that number is a `double` and
a `float`. -/
theorem load_then_get_sound_info (g : Globals) (samples : Int → ℚ) (n : Int) (rate : ℚ)
    (ia : InfoArgs) (hn : 1 ≤ n) (hr : 0 < rate)
    (hfloat : toFloat (.finite rate) = .finite rate) :
    (load_sound_from_memory g samples n rate).1 = 1 ∧
    (get_sound_info (load_sound_from_memory g samples n rate).2 ia).samples = n ∧
    (get_sound_info (load_sound_from_memory g samples n rate).2 ia).channels = 1 ∧
    (get_sound_info (load_sound_from_memory g samples n rate).2 ia).sampleRate
      = toFloat (divDouble 1 (toDouble (1 / rate))) ∧
    (get_sound_info (load_sound_from_memory g samples n rate).2 ia).sampleRate
      = .finite rate ∧
    (get_sound_info (load_sound_from_memory g samples n rate).2 ia).duration
      = toFloat (subDouble (toDouble ((n : ℚ) / rate)) (toDouble 0)) ∧
    (get_sound_info (load_sound_from_memory g samples n rate).2 ia).duration
      = toFloat (toDouble ((n : ℚ) / rate)) ∧
    (2 ^ (-126 : Int) ≤ (n : ℚ) / rate → (n : ℚ) / rate < 2 ^ (127 : Int) →
      ∃ d : ℚ, (get_sound_info (load_sound_from_memory g samples n rate).2 ia).duration
          = .finite d ∧
        |d - (n : ℚ) / rate| ≤ (n : ℚ) / rate * 2 ^ (-23 : Int)) ∧
    (toDouble ((n : ℚ) / rate) = .finite ((n : ℚ) / rate) →
      toFloat (.finite ((n : ℚ) / rate)) = .finite ((n : ℚ) / rate) →
      (get_sound_info (load_sound_from_memory g samples n rate).2 ia).duration
        = .finite ((n : ℚ) / rate)) := by
  rw [get_sound_info_after_load g samples n rate ia hn hr,
    load_sound_from_memory_ok g samples n rate hn hr]
  refine ⟨rfl, rfl, rfl, rfl, toFloat_recip_recip rate hr hfloat, rfl, ?_, ?_, ?_⟩
  · simp only []
    rw [subDouble_zero_right]
  · intro hlo hhi
    simp only []
    rw [subDouble_zero_right]
    exact toFloat_toDouble_rel _ hlo hhi
  · intro hd hf
    simp only []
    rw [subDouble_zero_right, hd, hf]

/-- C4, as amended, for three samples at 8000 Hz: the sampling rate comes back as 8000. -/
theorem load_then_get_sound_info_witness :
    (1 : Int) ≤ 3 ∧ (0 : ℚ) < 8000 ∧ toFloat (.finite 8000) = .finite 8000 ∧
    (get_sound_info (load_sound_from_memory Globals.initial exampleSamples 3 8000).2
        { sampleRate := 0, channels := 0, samples := 0, duration := 0 }).samples = 3 ∧
    (get_sound_info (load_sound_from_memory Globals.initial exampleSamples 3 8000).2
        { sampleRate := 0, channels := 0, samples := 0, duration := 0 }).sampleRate
      = .finite 8000 :=
  ⟨by decide, by norm_num,
    roundTo_of_scaled 24 (-126) 127 8000 8000 0 (by norm_num) (by norm_num)
      (by norm_num [abs_lt]) (by norm_num) (by norm_num),
    (load_then_get_sound_info Globals.initial exampleSamples 3 8000
      { sampleRate := 0, channels := 0, samples := 0, duration := 0 } (by decide) (by norm_num)
      (roundTo_of_scaled 24 (-126) 127 8000 8000 0 (by norm_num) (by norm_num)
        (by norm_num [abs_lt]) (by norm_num) (by norm_num))).2.1,
    (load_then_get_sound_info Globals.initial exampleSamples 3 8000
      { sampleRate := 0, channels := 0, samples := 0, duration := 0 } (by decide) (by norm_num)
      (roundTo_of_scaled 24 (-126) 127 8000 8000 0 (by norm_num) (by norm_num)
        (by norm_num [abs_lt]) (by norm_num) (by norm_num))).2.2.2.2.1⟩

/-- C4 as first stated fails: for three samples at the `float` rate 8000 the load succeeds
and `get_sound_info` reports the duration `6442451 / 17179869184`, the `float` nearest to
the `double` nearest to `3 / 8000`, and not `3 / 8000`. -/
theorem load_then_get_sound_info_counterexample :
    (1 : Int) ≤ 3 ∧ (0 : ℚ) < 8000 ∧ toFloat (.finite 8000) = .finite 8000 ∧
    (load_sound_from_memory Globals.initial exampleSamples 3 8000).1 = 1 ∧
    (get_sound_info (load_sound_from_memory Globals.initial exampleSamples 3 8000).2
        { sampleRate := 0, channels := 0, samples := 0, duration := 0 }).duration
      = .finite (6442451 / 17179869184) ∧
    (get_sound_info (load_sound_from_memory Globals.initial exampleSamples 3 8000).2
        { sampleRate := 0, channels := 0, samples := 0, duration := 0 }).duration
      ≠ .finite (((3 : Int) : ℚ) / 8000) := by
  have hdur : (get_sound_info (load_sound_from_memory Globals.initial exampleSamples 3 8000).2
      { sampleRate := 0, channels := 0, samples := 0, duration := 0 }).duration
      = .finite (6442451 / 17179869184) := by
    rw [get_sound_info_after_load _ _ _ _ _ (by decide) (by norm_num)]
    simp only []
    rw [subDouble_zero_right]
    have h1 : toDouble (((3 : Int) : ℚ) / 8000)
        = .finite (3458764513820541 / 9223372036854775808) := by
      apply roundTo_of_near 53 (-1022) 1023 _ _ (-12) (-64) 6917529027641082 <;> norm_num
    rw [h1]
    apply roundTo_of_near 24 (-126) 127 _ _ (-12) (-35) 12884902 <;> norm_num
  refine ⟨by decide, by norm_num, ?_, ?_, hdur, ?_⟩
  · apply roundTo_of_scaled 24 (-126) 127 8000 8000 0 <;> norm_num [abs_lt]
  · rw [load_sound_from_memory_ok _ _ _ _ (by decide) (by norm_num)]
  · rw [hdur]
    intro h
    injection h with h
    norm_num at h

/-- What `get_sound_time_axis` returns after a successful load. -/
theorem get_sound_time_axis_after_load (g : Globals) (samples : Int → ℚ) (n : Int) (rate : ℚ)
    (ta : TimeAxisArgs) (hn : 1 ≤ n) (hr : 0 < rate) :
    get_sound_time_axis (load_sound_from_memory g samples n rate).2 ta
      = { numSamples := n
          timeBuffer := forLoop 0 n
            (fun i acc => acc.store (i + 0)
              (toFloat (addDouble (toDouble 0)
                (mulDouble (toDouble (i : ℚ)) (toDouble (1 / rate))))))
            ta.timeBuffer } := by
  rw [load_sound_from_memory_ok g samples n rate hn hr]
  simp only [get_sound_time_axis, loadedSound_eq, add_zero]

/-- The time that `get_sound_time_axis` leaves at offset `i` after a successful load. -/
theorem get_sound_time_axis_cell_after_load (g : Globals) (samples : Int → ℚ) (n : Int)
    (rate : ℚ) (ta : TimeAxisArgs) (hn : 1 ≤ n) (hr : 0 < rate) (i : Int) (h0 : 0 ≤ i)
    (h1 : i < n) :
    (get_sound_time_axis (load_sound_from_memory g samples n rate).2 ta).timeBuffer.cell i
      = toFloat (addDouble (toDouble 0)
          (mulDouble (toDouble (i : ℚ)) (toDouble (1 / rate)))) := by
  rw [get_sound_time_axis_after_load g samples n rate ta hn hr]
  have h := forLoop_store32_cell 0 n 0
    (fun i : Int => toFloat (addDouble (toDouble 0)
      (mulDouble (toDouble (i : ℚ)) (toDouble (1 / rate))))) ta.timeBuffer i h0 h1
  rw [add_zero] at h
  exact h

/-- The times computed from a positive finite sampling period are non-negative and do not
decrease with the index. -/
theorem time_mono (y : ℚ) (hy : 0 < y) (i j : Int) (hi : 0 ≤ i) (hij : i ≤ j) :
    (0 : IEEE) ≤ toFloat (addDouble (.finite 0) (mulDouble (toDouble (i : ℚ)) (.finite y))) ∧
    toFloat (addDouble (.finite 0) (mulDouble (toDouble (i : ℚ)) (.finite y)))
      ≤ toFloat (addDouble (.finite 0) (mulDouble (toDouble (j : ℚ)) (.finite y))) := by
  have h1 := toDouble_mono (i : ℚ) (j : ℚ) (by exact_mod_cast hi) (by exact_mod_cast hij)
  have h2 := mulDouble_mono _ _ y hy h1.1 h1.2
  have h3 := addDouble_zero_mono _ _ h2.1 h2.2
  exact toFloat_mono _ _ h3.1 h3.2

/-- C6, as amended. After a successful load of `n` samples at a positive `float` value
`rate`, `get_sound_time_axis` reports `numSamples = n`, stores to the offsets
`0, 1, ..., n-1` once each, in order, and to no other, and leaves
`timeBuffer[i] = (float)(xmin + i * dx)` for `i = 0..n-1`, computed in `double` from
`xmin = 0` and `dx` the `double` nearest to `1 / rate`.  The times start at 0, are
non-negative, and never decrease: `timeBuffer[i] <= timeBuffer[i+1]`. -/
theorem load_then_get_sound_time_axis (g : Globals) (samples : Int → ℚ) (n : Int) (rate : ℚ)
    (ta : TimeAxisArgs) (hn : 1 ≤ n) (hr : 0 < rate)
    (hfloat : toFloat (.finite rate) = .finite rate) :
    (load_sound_from_memory g samples n rate).1 = 1 ∧
    (get_sound_time_axis (load_sound_from_memory g samples n rate).2 ta).numSamples = n ∧
    (get_sound_time_axis (load_sound_from_memory g samples n rate).2 ta).timeBuffer.stored
      = ta.timeBuffer.stored ++ loopIndices 0 n ∧
    (∀ j : Int, ¬ (0 ≤ j ∧ j < n) →
      (get_sound_time_axis (load_sound_from_memory g samples n rate).2 ta).timeBuffer.cell j
        = ta.timeBuffer.cell j) ∧
    (∃ sound, (load_sound_from_memory g samples n rate).2.g_autoSound = some sound ∧
      sound.xmin = 0 ∧ sound.dx = 1 / rate ∧
      ∀ i : Int, 0 ≤ i → i < n →
        (get_sound_time_axis (load_sound_from_memory g samples n rate).2 ta).timeBuffer.cell i
          = toFloat (addDouble (toDouble sound.xmin)
              (mulDouble (toDouble (i : ℚ)) (toDouble sound.dx)))) ∧
    (get_sound_time_axis (load_sound_from_memory g samples n rate).2 ta).timeBuffer.cell 0
      = 0 ∧
    (∀ i : Int, 0 ≤ i → i < n →
      (0 : IEEE)
        ≤ (get_sound_time_axis (load_sound_from_memory g samples n rate).2
            ta).timeBuffer.cell i) ∧
    (∀ i : Int, 0 ≤ i → i + 1 < n →
      (get_sound_time_axis (load_sound_from_memory g samples n rate).2 ta).timeBuffer.cell i
        ≤ (get_sound_time_axis (load_sound_from_memory g samples n rate).2
            ta).timeBuffer.cell (i + 1)) := by
  obtain ⟨y, hy, hdx⟩ := toDouble_recip_of_float rate hr hfloat
  have hcell := get_sound_time_axis_cell_after_load g samples n rate ta hn hr
  refine ⟨?_, ?_, ?_, ?_, ?_, ?_, ?_, ?_⟩
  · rw [load_sound_from_memory_ok g samples n rate hn hr]
  · rw [get_sound_time_axis_after_load g samples n rate ta hn hr]
  · rw [get_sound_time_axis_after_load g samples n rate ta hn hr]
    simp only []
    rw [forLoop_store32_stored]
    simp
  · intro j hj
    rw [get_sound_time_axis_after_load g samples n rate ta hn hr]
    exact forLoop_store32_cell_out 0 n 0 _ ta.timeBuffer j (by omega)
  · refine ⟨loadedSound samples n rate, ?_, ?_, ?_, ?_⟩
    · rw [load_sound_from_memory_ok g samples n rate hn hr]
    · rw [loadedSound_eq]
    · rw [loadedSound_eq]
    · intro i h0 h1
      rw [hcell i h0 h1, loadedSound_eq]
  · rw [hcell 0 (le_refl 0) (by omega), hdx, toDouble_zero]
    have h0 : toDouble (((0 : Int) : ℚ)) = .finite 0 := by
      rw [Int.cast_zero]
      exact toDouble_zero
    rw [h0]
    simp only [mulDouble, addDouble, zero_mul, add_zero]
    rw [toDouble_zero]
    simp only [addDouble, add_zero]
    rw [toDouble_zero]
    exact toFloat_zero
  · intro i h0 h1
    rw [hcell i h0 h1, hdx, toDouble_zero]
    exact (time_mono y hy i i h0 (le_refl i)).1
  · intro i h0 h1
    rw [hcell i h0 (by omega), hcell (i + 1) (by omega) h1, hdx, toDouble_zero]
    exact (time_mono y hy i (i + 1) h0 (by omega)).2

/-- C6, as amended, for three samples at 8000 Hz. -/
theorem load_then_get_sound_time_axis_witness :
    (1 : Int) ≤ 3 ∧ (0 : ℚ) < 8000 ∧ toFloat (.finite 8000) = .finite 8000 ∧
    (get_sound_time_axis (load_sound_from_memory Globals.initial exampleSamples 3 8000).2
        { timeBuffer := freshFloat32Array, numSamples := 0 }).numSamples = 3 ∧
    (get_sound_time_axis (load_sound_from_memory Globals.initial exampleSamples 3 8000).2
        { timeBuffer := freshFloat32Array, numSamples := 0 }).timeBuffer.stored = [0, 1, 2] ∧
    (get_sound_time_axis (load_sound_from_memory Globals.initial exampleSamples 3 8000).2
        { timeBuffer := freshFloat32Array, numSamples := 0 }).timeBuffer.cell 0 = 0 :=
  ⟨by decide, by norm_num,
    roundTo_of_scaled 24 (-126) 127 8000 8000 0 (by norm_num) (by norm_num)
      (by norm_num [abs_lt]) (by norm_num) (by norm_num),
    (load_then_get_sound_time_axis Globals.initial exampleSamples 3 8000
      { timeBuffer := freshFloat32Array, numSamples := 0 } (by decide) (by norm_num)
      (roundTo_of_scaled 24 (-126) 127 8000 8000 0 (by norm_num) (by norm_num)
        (by norm_num [abs_lt]) (by norm_num) (by norm_num))).2.1,
    (load_then_get_sound_time_axis Globals.initial exampleSamples 3 8000
      { timeBuffer := freshFloat32Array, numSamples := 0 } (by decide) (by norm_num)
      (roundTo_of_scaled 24 (-126) 127 8000 8000 0 (by norm_num) (by norm_num)
        (by norm_num [abs_lt]) (by norm_num) (by norm_num))).2.2.1.trans (by decide),
    (load_then_get_sound_time_axis Globals.initial exampleSamples 3 8000
      { timeBuffer := freshFloat32Array, numSamples := 0 } (by decide) (by norm_num)
      (roundTo_of_scaled 24 (-126) 127 8000 8000 0 (by norm_num) (by norm_num)
        (by norm_num [abs_lt]) (by norm_num) (by norm_num))).2.2.2.2.2.1⟩

/-- C6 as first stated fails: for 16777218 samples at the `float` rate 8192 the load
succeeds, and `get_sound_time_axis` leaves 2048 both at offset 16777216 and at offset
16777217.  So the time at offset 16777217 is not `xmin + 16777217 / 8192`, the step between
the two is 0 and not `1 / 8192`, and the times do not increase strictly. -/
theorem load_then_get_sound_time_axis_counterexample :
    (1 : Int) ≤ 16777218 ∧ (0 : ℚ) < 8192 ∧ toFloat (.finite 8192) = .finite 8192 ∧
    (load_sound_from_memory Globals.initial (fun _ => 0) 16777218 8192).1 = 1 ∧
    (get_sound_time_axis (load_sound_from_memory Globals.initial (fun _ => 0) 16777218 8192).2
        { timeBuffer := freshFloat32Array, numSamples := 0 }).timeBuffer.cell 16777216
      = .finite 2048 ∧
    (get_sound_time_axis (load_sound_from_memory Globals.initial (fun _ => 0) 16777218 8192).2
        { timeBuffer := freshFloat32Array, numSamples := 0 }).timeBuffer.cell 16777217
      = .finite 2048 ∧
    (get_sound_time_axis (load_sound_from_memory Globals.initial (fun _ => 0) 16777218 8192).2
        { timeBuffer := freshFloat32Array, numSamples := 0 }).timeBuffer.cell 16777217
      ≠ .finite (0 + ((16777217 : Int) : ℚ) / 8192) := by
  have hdx : toDouble (1 / 8192) = .finite (1 / 8192) := by
    apply roundTo_of_scaled 53 (-1022) 1023 _ 1 (-13) <;> norm_num [abs_lt]
  have ha : (get_sound_time_axis
      (load_sound_from_memory Globals.initial (fun _ => 0) 16777218 8192).2
      { timeBuffer := freshFloat32Array, numSamples := 0 }).timeBuffer.cell 16777216
      = .finite 2048 := by
    rw [get_sound_time_axis_cell_after_load _ _ _ _ _ (by decide) (by norm_num) 16777216
      (by decide) (by decide), hdx, toDouble_zero]
    have h1 : toDouble (((16777216 : Int) : ℚ)) = .finite 16777216 := by
      apply roundTo_of_scaled 53 (-1022) 1023 _ 16777216 0 <;> norm_num [abs_lt]
    have h2 : toDouble (16777216 * (1 / 8192)) = .finite 2048 := by
      apply roundTo_of_near 53 (-1022) 1023 _ _ 11 (-41) 4503599627370496 <;> norm_num
    have h3 : toDouble (0 + 2048) = .finite 2048 := by
      apply roundTo_of_near 53 (-1022) 1023 _ _ 11 (-41) 4503599627370496 <;> norm_num
    rw [h1]
    simp only [mulDouble]
    rw [h2]
    simp only [addDouble]
    rw [h3]
    apply roundTo_of_near 24 (-126) 127 _ _ 11 (-12) 8388608 <;> norm_num
  have hb : (get_sound_time_axis
      (load_sound_from_memory Globals.initial (fun _ => 0) 16777218 8192).2
      { timeBuffer := freshFloat32Array, numSamples := 0 }).timeBuffer.cell 16777217
      = .finite 2048 := by
    rw [get_sound_time_axis_cell_after_load _ _ _ _ _ (by decide) (by norm_num) 16777217
      (by decide) (by decide), hdx, toDouble_zero]
    have h1 : toDouble (((16777217 : Int) : ℚ)) = .finite 16777217 := by
      apply roundTo_of_scaled 53 (-1022) 1023 _ 16777217 0 <;> norm_num [abs_lt]
    have h2 : toDouble (16777217 * (1 / 8192)) = .finite (16777217 / 8192) := by
      rw [show (16777217 : ℚ) * (1 / 8192) = 16777217 / 8192 by norm_num]
      apply roundTo_of_scaled 53 (-1022) 1023 _ 16777217 (-13) <;> norm_num [abs_lt]
    have h3 : toDouble (0 + 16777217 / 8192) = .finite (16777217 / 8192) := by
      rw [zero_add]
      apply roundTo_of_scaled 53 (-1022) 1023 _ 16777217 (-13) <;> norm_num [abs_lt]
    rw [h1]
    simp only [mulDouble]
    rw [h2]
    simp only [addDouble]
    rw [h3]
    apply roundTo_of_tie_even 24 (-126) 127 _ _ 11 (-12) 8388608 <;> norm_num
  refine ⟨by decide, by norm_num, ?_, ?_, ha, hb, ?_⟩
  · apply roundTo_of_scaled 24 (-126) 127 8192 8192 0 <;> norm_num [abs_lt]
  · rw [load_sound_from_memory_ok _ _ _ _ (by decide) (by norm_num)]
  · rw [hb]
    intro h
    injection h with h
    norm_num at h

/-- C9. Sample round trip: when `load_sound_from_memory` of `n >= 1` samples returns 1,
the loaded sound holds input sample `i` at the 1-based position `i + 1` of channel 1, and a
following `get_sound_samples` reports `numSamples = n`, stores to the offsets `0..n-1` in
order, and leaves `outputBuffer[i] = samples[i]` for every `i` in `0..n-1`. -/
theorem samples_round_trip (g : Globals) (samples : Int → ℚ) (n : Int) (rate : ℚ)
    (sa : SamplesArgs) (hn : 1 ≤ n)
    (hl : (load_sound_from_memory g samples n rate).1 = 1) :
    (get_sound_samples (load_sound_from_memory g samples n rate).2 sa).numSamples = n ∧
    (∀ i : Int, 0 ≤ i → i < n →
      (get_sound_samples (load_sound_from_memory g samples n rate).2 sa).outputBuffer.cell i
        = samples i) ∧
    (∃ sound, (load_sound_from_memory g samples n rate).2.g_autoSound = some sound ∧
      ∀ i : Int, 0 ≤ i → i < n → sound.z 1 (i + 1) = samples i) ∧
    (get_sound_samples (load_sound_from_memory g samples n rate).2 sa).outputBuffer.stored
      = sa.outputBuffer.stored ++ loopIndices 0 n := by
  have hr : 0 < rate := by
    by_contra hneg
    rw [load_sound_from_memory_failed g samples n rate (Or.inr (not_lt.1 hneg))] at hl
    exact absurd hl (by simp)
  rw [load_sound_from_memory_ok g samples n rate hn hr]
  have hz : ∀ i : Int, 0 ≤ i → i < n → (loadedSound samples n rate).z 1 (i + 1) = samples i := by
    intro i h0 h1
    rw [loadedSound_eq]
    have hc : True ∧ 1 ≤ i + 1 ∧ i + 1 ≤ n := ⟨trivial, by omega, by omega⟩
    simp only []
    rw [if_pos hc, add_sub_cancel_right]
  have hget : get_sound_samples
      { g with g_autoSound := some (loadedSound samples n rate)
               g_currentSound := some (loadedSound samples n rate) } sa
      = { numSamples := n
          outputBuffer := forLoop 1 (n + 1)
            (fun i acc => acc.store (i + -1) ((loadedSound samples n rate).z 1 i))
            sa.outputBuffer } := by
    have hnx : (loadedSound samples n rate).nx = n := by rw [loadedSound_eq]
    simp only [get_sound_samples, hnx]
    rfl
  rw [hget]
  refine ⟨rfl, ?_, ⟨loadedSound samples n rate, rfl, hz⟩, ?_⟩
  · intro i h0 h1
    have h := forLoop_store_cell 1 (n + 1) (-1) (fun i => (loadedSound samples n rate).z 1 i)
      sa.outputBuffer (i + 1) (by omega) (by omega)
    rw [show i + 1 + -1 = i by omega] at h
    simp only []
    rw [h]
    exact hz i h0 h1
  · have h := forLoop_store_stored 1 (n + 1) (-1) (fun i => (loadedSound samples n rate).z 1 i)
      sa.outputBuffer
    simp only []
    rw [h]
    congr 1
    unfold loopIndices
    rw [List.map_map]
    have e : (n + 1 - 1).toNat = (n - 0).toNat := by omega
    rw [e]
    apply List.map_congr_left
    intro k _
    simp only [Function.comp]
    omega

/-- C9, for three samples at 8000 Hz. -/
theorem samples_round_trip_witness :
    (1 : Int) ≤ 3 ∧ (load_sound_from_memory Globals.initial exampleSamples 3 8000).1 = 1 ∧
    (get_sound_samples (load_sound_from_memory Globals.initial exampleSamples 3 8000).2
        { outputBuffer := freshArray, numSamples := 0 }).outputBuffer.cell 1 = -1 / 4 :=
  ⟨by decide, by rw [load_sound_from_memory_ok _ _ _ _ (by decide) (by norm_num)],
    ((samples_round_trip Globals.initial exampleSamples 3 8000
      { outputBuffer := freshArray, numSamples := 0 } (by decide)
      (by rw [load_sound_from_memory_ok _ _ _ _ (by decide) (by norm_num)])).2.1 1
      (by decide) (by decide)).trans (by simp [exampleSamples])⟩

/-! ## Failure of an analyzer -/

/-- C5. With a buffer loaded, when the analyzer raises an error or returns no result,
`get_spectrum` returns with `numBins = 0`, `get_spectrogram` with `numTimes = 0` and
`numFreqs = 0`, `get_pitch` with `numFrames = 0`, and each leaves its output arrays as they
were (no cell changed, no store made). -/
theorem get_after_analyzer_failure
    (Sound_to_Spectrum : Sound → Bool → Except CppException autoSpectrum) (sqrt : IEEE → IEEE)
    (Sound_to_Spectrogram : SpectrogramAnalyzer)
    (Sound_to_Pitch : Sound → ℚ → ℚ → ℚ → Except CppException autoPitch)
    (g : Globals) (sound : Sound) (hs : g.g_autoSound = some sound)
    (ca : SpectrumArgs) (ga : SpectrogramArgs) (pa : PitchArgs) :
    ((Sound_to_Spectrum sound true = .ok none ∨ ∃ e, Sound_to_Spectrum sound true = .error e) →
      get_spectrum Sound_to_Spectrum sqrt g ca
        = { frequencies := ca.frequencies, amplitudes := ca.amplitudes, numBins := 0 }) ∧
    ((Sound_to_Spectrogram sound (3 / 100) 8000 0 0 .GAUSSIAN 1 1 = .ok none ∨
        ∃ e, Sound_to_Spectrogram sound (3 / 100) 8000 0 0 .GAUSSIAN 1 1 = .error e) →
      get_spectrogram Sound_to_Spectrogram g ga
        = { times := ga.times, frequencies := ga.frequencies, values := ga.values
            numTimes := 0, numFreqs := 0 }) ∧
    ((Sound_to_Pitch sound (1 / 100) 75 600 = .ok none ∨
        ∃ e, Sound_to_Pitch sound (1 / 100) 75 600 = .error e) →
      get_pitch Sound_to_Pitch g pa
        = { times := pa.times, values := pa.values, numFrames := 0 }) := by
  refine ⟨?_, ?_, ?_⟩
  · intro h
    unfold get_spectrum
    rw [hs]
    rcases h with h | ⟨e, h⟩ <;> simp only [h]
  · intro h
    unfold get_spectrogram
    rw [hs]
    rcases h with h | ⟨e, h⟩ <;> simp only [h]
  · intro h
    unfold get_pitch
    rw [hs]
    rcases h with h | ⟨e, h⟩ <;> simp only [h]

/-- C5, for a loaded sound and a spectrum analyzer that throws. -/
theorem get_after_analyzer_failure_witness :
    exampleLoaded.g_autoSound = some exampleSound ∧
    get_spectrum (fun _ _ => .error (.melderError "too short")) id exampleLoaded
        { frequencies := freshFloat32Array, amplitudes := freshFloat32Array, numBins := 7 }
      = { frequencies := freshFloat32Array, amplitudes := freshFloat32Array, numBins := 0 } :=
  ⟨rfl, (get_after_analyzer_failure (fun _ _ => .error (.melderError "too short")) id
    (fun _ _ _ _ _ _ _ _ => .ok none) (fun _ _ _ _ => .error .other)
    exampleLoaded exampleSound rfl
    { frequencies := freshFloat32Array, amplitudes := freshFloat32Array, numBins := 7 }
    { times := freshArray, frequencies := freshArray, values := freshArray
      numTimes := 7, numFreqs := 7 }
    { times := freshArray, values := freshArray, numFrames := 7 }).1
    (Or.inr ⟨_, rfl⟩)⟩

/-! ## Loading from a file -/

/-- C10. `load_sound` leaves `g_autoSound` and `g_currentSound` as they were, for every
path and every outcome of the file decoder, so every `get` entry point returns after the
call what it returned before it; when no sound was loaded before the call, every `get`
entry point still reports zero after it. -/
theorem load_sound_keeps_sound
    (Sound_readFromSoundFile : String → Except CppException autoSound)
    (snprintf : ℚ → Int → Int → ℚ → String) (g : Globals) (filePath : String)
    (Sound_to_Spectrum : Sound → Bool → Except CppException autoSpectrum) (sqrt : IEEE → IEEE)
    (Sound_to_Spectrogram : SpectrogramAnalyzer)
    (Sound_to_Pitch : Sound → ℚ → ℚ → ℚ → Except CppException autoPitch)
    (sa : SamplesArgs) (ta : TimeAxisArgs) (ia : InfoArgs) (ca : SpectrumArgs)
    (ga : SpectrogramArgs) (pa : PitchArgs) :
    (load_sound Sound_readFromSoundFile snprintf g filePath).2.g_autoSound = g.g_autoSound ∧
    (load_sound Sound_readFromSoundFile snprintf g filePath).2.g_currentSound
      = g.g_currentSound ∧
    get_sound_info (load_sound Sound_readFromSoundFile snprintf g filePath).2 ia
      = get_sound_info g ia ∧
    get_sound_samples (load_sound Sound_readFromSoundFile snprintf g filePath).2 sa
      = get_sound_samples g sa ∧
    get_sound_time_axis (load_sound Sound_readFromSoundFile snprintf g filePath).2 ta
      = get_sound_time_axis g ta ∧
    get_spectrum Sound_to_Spectrum sqrt
        (load_sound Sound_readFromSoundFile snprintf g filePath).2 ca
      = get_spectrum Sound_to_Spectrum sqrt g ca ∧
    get_spectrogram Sound_to_Spectrogram
        (load_sound Sound_readFromSoundFile snprintf g filePath).2 ga
      = get_spectrogram Sound_to_Spectrogram g ga ∧
    get_pitch Sound_to_Pitch (load_sound Sound_readFromSoundFile snprintf g filePath).2 pa
      = get_pitch Sound_to_Pitch g pa ∧
    (g.g_autoSound = none →
      get_sound_info (load_sound Sound_readFromSoundFile snprintf g filePath).2 ia
        = { sampleRate := 0, channels := 0, samples := 0, duration := 0 } ∧
      (get_sound_samples (load_sound Sound_readFromSoundFile snprintf g filePath).2
        sa).numSamples = 0 ∧
      (get_sound_time_axis (load_sound Sound_readFromSoundFile snprintf g filePath).2
        ta).numSamples = 0 ∧
      (get_spectrum Sound_to_Spectrum sqrt
        (load_sound Sound_readFromSoundFile snprintf g filePath).2 ca).numBins = 0 ∧
      (get_spectrogram Sound_to_Spectrogram
        (load_sound Sound_readFromSoundFile snprintf g filePath).2 ga).numTimes = 0 ∧
      (get_spectrogram Sound_to_Spectrogram
        (load_sound Sound_readFromSoundFile snprintf g filePath).2 ga).numFreqs = 0 ∧
      (get_pitch Sound_to_Pitch
        (load_sound Sound_readFromSoundFile snprintf g filePath).2 pa).numFrames = 0) := by
  refine ⟨rfl, rfl, rfl, rfl, rfl, rfl, rfl, rfl, ?_⟩
  intro h
  have h' : (load_sound Sound_readFromSoundFile snprintf g filePath).2.g_autoSound = none := h
  unfold get_sound_info get_sound_samples get_sound_time_axis get_spectrum get_spectrogram
    get_pitch
  rw [h']
  exact ⟨rfl, rfl, rfl, rfl, rfl, rfl, rfl⟩

/-- C10, for a decoder that succeeds on a state with no sound loaded: the summary text is
returned and `get_sound_info` still reports zero. -/
theorem load_sound_keeps_sound_witness :
    (load_sound (fun _ => .ok (some exampleSound)) (fun _ _ _ _ => "summary")
      Globals.initial "a.wav").1 = "summary" ∧
    get_sound_info
        (load_sound (fun _ => .ok (some exampleSound)) (fun _ _ _ _ => "summary")
          Globals.initial "a.wav").2
        { sampleRate := 1, channels := 1, samples := 1, duration := 1 }
      = { sampleRate := 0, channels := 0, samples := 0, duration := 0 } :=
  ⟨rfl, ((load_sound_keeps_sound (fun _ => .ok (some exampleSound)) (fun _ _ _ _ => "summary")
    Globals.initial "a.wav" (fun _ _ => .error .other) id
    (fun _ _ _ _ _ _ _ _ => .error .other) (fun _ _ _ _ => .error .other)
    { outputBuffer := freshArray, numSamples := 7 }
    { timeBuffer := freshFloat32Array, numSamples := 7 }
    { sampleRate := 1, channels := 1, samples := 1, duration := 1 }
    { frequencies := freshFloat32Array, amplitudes := freshFloat32Array, numBins := 7 }
    { times := freshArray, frequencies := freshArray, values := freshArray
      numTimes := 7, numFreqs := 7 }
    { times := freshArray, values := freshArray, numFrames := 7 }).2.2.2.2.2.2.2.2 rfl).1⟩

/-! ## The spectrum -/

theorem foldl_spectrum (v1 v2 : Int → IEEE) (l : List Int) (a : SpectrumArgs) :
    l.foldl (fun (a : SpectrumArgs) i =>
        { a with
          frequencies := a.frequencies.store (i - 1) (v1 i)
          amplitudes := a.amplitudes.store (i - 1) (v2 i) }) a
      = { a with
          frequencies := l.foldl (fun acc i => acc.store (i + -1) (v1 i)) a.frequencies
          amplitudes := l.foldl (fun acc i => acc.store (i + -1) (v2 i)) a.amplitudes } := by
  induction l generalizing a with
  | nil => rfl
  | cons x xs ih =>
    rw [List.foldl_cons, ih]
    rfl

/-- What `get_spectrum` returns when the analyzer returns a spectrum. -/
theorem get_spectrum_ok
    (Sound_to_Spectrum : Sound → Bool → Except CppException autoSpectrum) (sqrt : IEEE → IEEE)
    (g : Globals) (sound : Sound) (spectrum : Spectrum) (ca : SpectrumArgs)
    (hs : g.g_autoSound = some sound)
    (hsp : Sound_to_Spectrum sound true = .ok (some spectrum)) :
    get_spectrum Sound_to_Spectrum sqrt g ca
      = { numBins := spectrum.nx
          frequencies := forLoop 1 (spectrum.nx + 1)
            (fun i acc => acc.store (i + -1)
              (toFloat (addDouble (toDouble spectrum.x1)
                (mulDouble (toDouble ((i - 1 : Int) : ℚ)) (toDouble spectrum.dx)))))
            ca.frequencies
          amplitudes := forLoop 1 (spectrum.nx + 1)
            (fun i acc => acc.store (i + -1)
              (toFloat (sqrt (addDouble
                (mulDouble (toDouble (spectrum.z 1 i)) (toDouble (spectrum.z 1 i)))
                (mulDouble (toDouble (spectrum.z 2 i)) (toDouble (spectrum.z 2 i)))))))
            ca.amplitudes } := by
  unfold get_spectrum
  rw [hs]
  simp only [hsp]
  rw [forLoop_eq_foldl, forLoop_eq_foldl, forLoop_eq_foldl]
  exact foldl_spectrum
    (fun i => toFloat (addDouble (toDouble spectrum.x1)
      (mulDouble (toDouble ((i - 1 : Int) : ℚ)) (toDouble spectrum.dx))))
    (fun i => toFloat (sqrt (addDouble
      (mulDouble (toDouble (spectrum.z 1 i)) (toDouble (spectrum.z 1 i)))
      (mulDouble (toDouble (spectrum.z 2 i)) (toDouble (spectrum.z 2 i))))))
    (loopIndices 1 (spectrum.nx + 1)) _

/-- The frequency and the amplitude that `get_spectrum` leaves for the 1-based bin `i`. -/
theorem get_spectrum_cells
    (Sound_to_Spectrum : Sound → Bool → Except CppException autoSpectrum) (sqrt : IEEE → IEEE)
    (g : Globals) (sound : Sound) (spectrum : Spectrum) (ca : SpectrumArgs)
    (hs : g.g_autoSound = some sound)
    (hsp : Sound_to_Spectrum sound true = .ok (some spectrum))
    (i : Int) (h1 : 1 ≤ i) (h2 : i ≤ spectrum.nx) :
    (get_spectrum Sound_to_Spectrum sqrt g ca).frequencies.cell (i - 1)
      = toFloat (addDouble (toDouble spectrum.x1)
          (mulDouble (toDouble ((i - 1 : Int) : ℚ)) (toDouble spectrum.dx))) ∧
    (get_spectrum Sound_to_Spectrum sqrt g ca).amplitudes.cell (i - 1)
      = toFloat (sqrt (addDouble
          (mulDouble (toDouble (spectrum.z 1 i)) (toDouble (spectrum.z 1 i)))
          (mulDouble (toDouble (spectrum.z 2 i)) (toDouble (spectrum.z 2 i))))) := by
  rw [get_spectrum_ok Sound_to_Spectrum sqrt g sound spectrum ca hs hsp]
  have hf := forLoop_store32_cell 1 (spectrum.nx + 1) (-1)
    (fun i : Int => toFloat (addDouble (toDouble spectrum.x1)
      (mulDouble (toDouble ((i - 1 : Int) : ℚ)) (toDouble spectrum.dx))))
    ca.frequencies i h1 (by omega)
  have ha := forLoop_store32_cell 1 (spectrum.nx + 1) (-1)
    (fun i : Int => toFloat (sqrt (addDouble
      (mulDouble (toDouble (spectrum.z 1 i)) (toDouble (spectrum.z 1 i)))
      (mulDouble (toDouble (spectrum.z 2 i)) (toDouble (spectrum.z 2 i))))))
    ca.amplitudes i h1 (by omega)
  rw [show i + -1 = i - 1 by omega] at hf ha
  exact ⟨hf, ha⟩

/-- The square of a `double` is a non-negative number or `+∞`. -/
theorem mulDouble_self_nonneg (x : ℚ) :
    (0 : IEEE) ≤ mulDouble (toDouble x) (toDouble x) := by
  cases h : toDouble x with
  | finite a => exact roundTo_nonneg 53 (-1022) 1023 (a * a) (mul_self_nonneg a)
  | pinf => trivial
  | ninf => trivial
  | nan => exact absurd h (toDouble_ne_nan x)

/-- The sum of two `double`s that are non-negative or `+∞` is non-negative or `+∞`. -/
theorem addDouble_nonneg (u v : IEEE) (hu : (0 : IEEE) ≤ u) (hv : (0 : IEEE) ≤ v) :
    (0 : IEEE) ≤ addDouble u v := by
  rcases IEEE.zero_le_cases u hu with ⟨a, ha, rfl⟩ | rfl <;>
    rcases IEEE.zero_le_cases v hv with ⟨b, hb, rfl⟩ | rfl
  · exact roundTo_nonneg 53 (-1022) 1023 (a + b) (add_nonneg ha hb)
  · trivial
  · trivial
  · trivial

/-- The cast to `float` of a `double` that is non-negative or `+∞` is non-negative or `+∞`. -/
theorem toFloat_nonneg (u : IEEE) (hu : (0 : IEEE) ≤ u) : (0 : IEEE) ≤ toFloat u := by
  rcases IEEE.zero_le_cases u hu with ⟨a, ha, rfl⟩ | rfl
  · exact roundTo_nonneg 24 (-126) 127 a ha
  · trivial

/-- C8, as amended. For every spectrum the analyzer returns, with `nx` bins, origin `x1` and
spacing `dx`, `get_spectrum` reports `numBins = nx` and for each 1-based bin `i` in `1..nx`
leaves `frequencies[i-1] = (float)(x1 + (i-1)*dx)` and
`amplitudes[i-1] = (float)sqrt (re*re + im*im)`, both computed in `double` from the members
read, with `re = z[1][i]` and `im = z[2][i]`.  The frequency is `(float)((i-1)*dx)` when
`x1 = 0`, and it is `x1 + (i-1)*dx` itself when no step of its computation rounds.  The
argument of the square root is a non-negative number or `+∞`; so the amplitude is a
non-negative number or `+∞` when `sqrt` maps such values to such values, and it is 0 when
`re = im = 0` and `sqrt 0 = 0`. -/
theorem get_spectrum_bins
    (Sound_to_Spectrum : Sound → Bool → Except CppException autoSpectrum) (sqrt : IEEE → IEEE)
    (g : Globals) (sound : Sound) (spectrum : Spectrum) (ca : SpectrumArgs)
    (hs : g.g_autoSound = some sound)
    (hsp : Sound_to_Spectrum sound true = .ok (some spectrum)) :
    (get_spectrum Sound_to_Spectrum sqrt g ca).numBins = spectrum.nx ∧
    ∀ i : Int, 1 ≤ i → i ≤ spectrum.nx →
      (get_spectrum Sound_to_Spectrum sqrt g ca).frequencies.cell (i - 1)
        = toFloat (addDouble (toDouble spectrum.x1)
            (mulDouble (toDouble ((i - 1 : Int) : ℚ)) (toDouble spectrum.dx))) ∧
      (spectrum.x1 = 0 →
        (get_spectrum Sound_to_Spectrum sqrt g ca).frequencies.cell (i - 1)
          = toFloat (mulDouble (toDouble ((i - 1 : Int) : ℚ)) (toDouble spectrum.dx))) ∧
      (toDouble spectrum.x1 = .finite spectrum.x1 →
        toDouble spectrum.dx = .finite spectrum.dx →
        toDouble ((i - 1 : Int) : ℚ) = .finite ((i : ℚ) - 1) →
        toDouble (((i : ℚ) - 1) * spectrum.dx) = .finite (((i : ℚ) - 1) * spectrum.dx) →
        toDouble (spectrum.x1 + ((i : ℚ) - 1) * spectrum.dx)
          = .finite (spectrum.x1 + ((i : ℚ) - 1) * spectrum.dx) →
        toFloat (.finite (spectrum.x1 + ((i : ℚ) - 1) * spectrum.dx))
          = .finite (spectrum.x1 + ((i : ℚ) - 1) * spectrum.dx) →
        (get_spectrum Sound_to_Spectrum sqrt g ca).frequencies.cell (i - 1)
          = .finite (spectrum.x1 + ((i : ℚ) - 1) * spectrum.dx)) ∧
      (get_spectrum Sound_to_Spectrum sqrt g ca).amplitudes.cell (i - 1)
        = toFloat (sqrt (addDouble
            (mulDouble (toDouble (spectrum.z 1 i)) (toDouble (spectrum.z 1 i)))
            (mulDouble (toDouble (spectrum.z 2 i)) (toDouble (spectrum.z 2 i))))) ∧
      (0 : IEEE) ≤ addDouble
          (mulDouble (toDouble (spectrum.z 1 i)) (toDouble (spectrum.z 1 i)))
          (mulDouble (toDouble (spectrum.z 2 i)) (toDouble (spectrum.z 2 i))) ∧
      ((∀ v : IEEE, (0 : IEEE) ≤ v → (0 : IEEE) ≤ sqrt v) →
        (0 : IEEE) ≤ (get_spectrum Sound_to_Spectrum sqrt g ca).amplitudes.cell (i - 1)) ∧
      (sqrt 0 = 0 → spectrum.z 1 i = 0 → spectrum.z 2 i = 0 →
        (get_spectrum Sound_to_Spectrum sqrt g ca).amplitudes.cell (i - 1) = 0) := by
  refine ⟨by rw [get_spectrum_ok Sound_to_Spectrum sqrt g sound spectrum ca hs hsp], ?_⟩
  intro i h1 h2
  obtain ⟨hf, ha⟩ := get_spectrum_cells Sound_to_Spectrum sqrt g sound spectrum ca hs hsp i h1 h2
  have harg : (0 : IEEE) ≤ addDouble
      (mulDouble (toDouble (spectrum.z 1 i)) (toDouble (spectrum.z 1 i)))
      (mulDouble (toDouble (spectrum.z 2 i)) (toDouble (spectrum.z 2 i))) :=
    addDouble_nonneg _ _ (mulDouble_self_nonneg _) (mulDouble_self_nonneg _)
  refine ⟨hf, ?_, ?_, ha, harg, ?_, ?_⟩
  · intro hx1
    rw [hf, hx1, toDouble_zero, addDouble_zero_mulDouble]
  · intro e1 e2 e3 e4 e5 e6
    rw [hf, e1, e2, e3]
    simp only [mulDouble]
    rw [e4]
    simp only [addDouble]
    rw [e5]
    exact e6
  · intro hsqrt
    rw [ha]
    exact toFloat_nonneg _ (hsqrt _ harg)
  · intro hsqrt0 hre him
    rw [ha, hre, him, toDouble_zero]
    simp only [mulDouble, mul_zero]
    rw [toDouble_zero]
    simp only [addDouble, add_zero]
    rw [toDouble_zero]
    have h0 : sqrt (.finite 0) = .finite 0 := hsqrt0
    rw [h0]
    exact toFloat_zero

/-- C8, as amended, for a spectrum of two bins, `3 + 4i` at 0 Hz and `0` at 4000 Hz, and the
correctly rounded square root: the amplitudes are 5 and 0, and the second frequency is
4000. -/
theorem get_spectrum_bins_witness :
    exampleLoaded.g_autoSound = some exampleSound ∧
    (get_spectrum (fun _ _ => .ok (some exampleSpectrum)) std_sqrt exampleLoaded
        { frequencies := freshFloat32Array, amplitudes := freshFloat32Array
          numBins := 0 }).numBins = 2 ∧
    (get_spectrum (fun _ _ => .ok (some exampleSpectrum)) std_sqrt exampleLoaded
        { frequencies := freshFloat32Array, amplitudes := freshFloat32Array
          numBins := 0 }).frequencies.cell (2 - 1) = .finite 4000 ∧
    (get_spectrum (fun _ _ => .ok (some exampleSpectrum)) std_sqrt exampleLoaded
        { frequencies := freshFloat32Array, amplitudes := freshFloat32Array
          numBins := 0 }).amplitudes.cell (1 - 1) = .finite 5 ∧
    (get_spectrum (fun _ _ => .ok (some exampleSpectrum)) std_sqrt exampleLoaded
        { frequencies := freshFloat32Array, amplitudes := freshFloat32Array
          numBins := 0 }).amplitudes.cell (2 - 1) = 0 := by
  have h := get_spectrum_bins (fun _ _ => .ok (some exampleSpectrum)) std_sqrt exampleLoaded
    exampleSound exampleSpectrum
    { frequencies := freshFloat32Array, amplitudes := freshFloat32Array, numBins := 0 } rfl rfl
  have h1 : toDouble 1 = .finite 1 := by
    apply roundTo_of_scaled 53 (-1022) 1023 _ 1 0 <;> norm_num [abs_lt]
  have h3 : toDouble 3 = .finite 3 := by
    apply roundTo_of_scaled 53 (-1022) 1023 _ 3 0 <;> norm_num [abs_lt]
  have h4 : toDouble 4 = .finite 4 := by
    apply roundTo_of_scaled 53 (-1022) 1023 _ 4 0 <;> norm_num [abs_lt]
  have h9 : toDouble 9 = .finite 9 := by
    apply roundTo_of_scaled 53 (-1022) 1023 _ 9 0 <;> norm_num [abs_lt]
  have h16 : toDouble 16 = .finite 16 := by
    apply roundTo_of_scaled 53 (-1022) 1023 _ 16 0 <;> norm_num [abs_lt]
  have h25 : toDouble 25 = .finite 25 := by
    apply roundTo_of_scaled 53 (-1022) 1023 _ 25 0 <;> norm_num [abs_lt]
  have h4000 : toDouble 4000 = .finite 4000 := by
    apply roundTo_of_scaled 53 (-1022) 1023 _ 4000 0 <;> norm_num [abs_lt]
  have hs25 : std_sqrt (.finite 25) = .finite 5 := by
    apply std_sqrt_of_square 25 5 4 (-50) (5 * 2 ^ 50) <;> norm_num
  have hf5 : toFloat (.finite 5) = .finite 5 := by
    apply roundTo_of_scaled 24 (-126) 127 _ 5 0 <;> norm_num [abs_lt]
  have hf4000 : toFloat (.finite 4000) = .finite 4000 := by
    apply roundTo_of_scaled 24 (-126) 127 _ 4000 0 <;> norm_num [abs_lt]
  refine ⟨rfl, h.1, ?_, ?_, ?_⟩
  · refine ((h.2 2 (by decide) (by decide)).2.1 rfl).trans ?_
    have e : (((2 - 1 : Int)) : ℚ) = 1 := by norm_num
    have edx : exampleSpectrum.dx = 4000 := rfl
    rw [e, edx, h1, h4000]
    simp only [mulDouble, one_mul]
    rw [h4000]
    exact hf4000
  · refine (h.2 1 (by decide) (by decide)).2.2.2.1.trans ?_
    have e1 : exampleSpectrum.z 1 1 = 3 := by simp [exampleSpectrum]
    have e2 : exampleSpectrum.z 2 1 = 4 := by simp [exampleSpectrum]
    rw [e1, e2, h3, h4]
    simp only [mulDouble]
    rw [show (3 : ℚ) * 3 = 9 by norm_num, show (4 : ℚ) * 4 = 16 by norm_num, h9, h16]
    simp only [addDouble]
    rw [show (9 : ℚ) + 16 = 25 by norm_num, h25, hs25]
    exact hf5
  · exact (h.2 2 (by decide) (by decide)).2.2.2.2.2.2 std_sqrt_zero
      (by simp [exampleSpectrum]) (by simp [exampleSpectrum])

/-- C8 as first stated fails: for a spectrum whose two bins have the real parts `2 ^ (-160)`
and `2 ^ (-600)` and the imaginary part 0, `get_spectrum` with the correctly rounded square
root reports the amplitude 0 for both bins although neither real part is 0 (the first
amplitude is lost in the cast to `float`, the second in the squaring in `double`); and with
the bin spacing `16777217` it reports the frequency `16777216` for the second bin, not
`x1 + (2-1)*dx = 16777217`. -/
theorem get_spectrum_bins_counterexample :
    exampleLoaded.g_autoSound = some exampleSound ∧
    underflowSpectrum.z 1 1 ≠ 0 ∧ underflowSpectrum.z 1 2 ≠ 0 ∧
    (get_spectrum (fun _ _ => .ok (some underflowSpectrum)) std_sqrt exampleLoaded
        { frequencies := freshFloat32Array, amplitudes := freshFloat32Array
          numBins := 0 }).amplitudes.cell (1 - 1) = 0 ∧
    (get_spectrum (fun _ _ => .ok (some underflowSpectrum)) std_sqrt exampleLoaded
        { frequencies := freshFloat32Array, amplitudes := freshFloat32Array
          numBins := 0 }).amplitudes.cell (2 - 1) = 0 ∧
    (get_spectrum (fun _ _ => .ok (some underflowSpectrum)) std_sqrt exampleLoaded
        { frequencies := freshFloat32Array, amplitudes := freshFloat32Array
          numBins := 0 }).frequencies.cell (2 - 1) = .finite 16777216 ∧
    (get_spectrum (fun _ _ => .ok (some underflowSpectrum)) std_sqrt exampleLoaded
        { frequencies := freshFloat32Array, amplitudes := freshFloat32Array
          numBins := 0 }).frequencies.cell (2 - 1)
      ≠ .finite (underflowSpectrum.x1 + (((2 : Int) : ℚ) - 1) * underflowSpectrum.dx) := by
  have hc := get_spectrum_cells (fun _ _ => .ok (some underflowSpectrum)) std_sqrt
    exampleLoaded exampleSound underflowSpectrum
    { frequencies := freshFloat32Array, amplitudes := freshFloat32Array, numBins := 0 } rfl rfl
  have z11 : underflowSpectrum.z 1 1 = 1 / 2 ^ 160 := by simp [underflowSpectrum]
  have z21 : underflowSpectrum.z 2 1 = 0 := by simp [underflowSpectrum]
  have z12 : underflowSpectrum.z 1 2 = 1 / 2 ^ 600 := by simp [underflowSpectrum]
  have z22 : underflowSpectrum.z 2 2 = 0 := by simp [underflowSpectrum]
  have hx1 : underflowSpectrum.x1 = 0 := rfl
  have hdx : underflowSpectrum.dx = 16777217 := rfl
  have hzero : mulDouble (toDouble 0) (toDouble 0) = .finite 0 := by
    rw [toDouble_zero]
    simp only [mulDouble, mul_zero]
    exact toDouble_zero
  have hamp1 : (get_spectrum (fun _ _ => .ok (some underflowSpectrum)) std_sqrt exampleLoaded
      { frequencies := freshFloat32Array, amplitudes := freshFloat32Array
        numBins := 0 }).amplitudes.cell (1 - 1) = .finite 0 := by
    rw [(hc 1 (by decide) (by decide)).2, z11, z21, hzero]
    have h1 : toDouble (1 / 2 ^ 160) = .finite (1 / 2 ^ 160) := by
      apply roundTo_of_scaled 53 (-1022) 1023 _ 1 (-160) <;> norm_num [abs_lt]
    have h2 : toDouble (1 / 2 ^ 160 * (1 / 2 ^ 160)) = .finite (1 / 2 ^ 320) := by
      rw [show (1 : ℚ) / 2 ^ 160 * (1 / 2 ^ 160) = 1 / 2 ^ 320 by norm_num]
      apply roundTo_of_scaled 53 (-1022) 1023 _ 1 (-320) <;> norm_num [abs_lt]
    have h3 : toDouble (1 / 2 ^ 320 + 0) = .finite (1 / 2 ^ 320) := by
      rw [add_zero]
      apply roundTo_of_scaled 53 (-1022) 1023 _ 1 (-320) <;> norm_num [abs_lt]
    have h4 : std_sqrt (.finite (1 / 2 ^ 320)) = .finite (1 / 2 ^ 160) := by
      apply std_sqrt_of_square _ _ (-320) (-212) (2 ^ 52) <;> norm_num
    rw [h1]
    simp only [mulDouble]
    rw [h2]
    simp only [addDouble]
    rw [h3, h4]
    apply roundTo_of_near 24 (-126) 127 _ _ (-160) (-149) 0 <;> norm_num
  have hamp2 : (get_spectrum (fun _ _ => .ok (some underflowSpectrum)) std_sqrt exampleLoaded
      { frequencies := freshFloat32Array, amplitudes := freshFloat32Array
        numBins := 0 }).amplitudes.cell (2 - 1) = .finite 0 := by
    rw [(hc 2 (by decide) (by decide)).2, z12, z22, hzero]
    have h1 : toDouble (1 / 2 ^ 600) = .finite (1 / 2 ^ 600) := by
      apply roundTo_of_scaled 53 (-1022) 1023 _ 1 (-600) <;> norm_num [abs_lt]
    have h2 : toDouble (1 / 2 ^ 600 * (1 / 2 ^ 600)) = .finite 0 := by
      rw [show (1 : ℚ) / 2 ^ 600 * (1 / 2 ^ 600) = 1 / 2 ^ 1200 by norm_num]
      apply roundTo_of_near 53 (-1022) 1023 _ _ (-1200) (-1074) 0 <;> norm_num
    rw [h1]
    simp only [mulDouble]
    rw [h2]
    simp only [addDouble, add_zero]
    rw [toDouble_zero, std_sqrt_zero]
    exact toFloat_zero
  have hfreq : (get_spectrum (fun _ _ => .ok (some underflowSpectrum)) std_sqrt exampleLoaded
      { frequencies := freshFloat32Array, amplitudes := freshFloat32Array
        numBins := 0 }).frequencies.cell (2 - 1) = .finite 16777216 := by
    rw [(hc 2 (by decide) (by decide)).1, hx1, hdx, toDouble_zero]
    have e : (((2 - 1 : Int)) : ℚ) = 1 := by norm_num
    have h1 : toDouble 1 = .finite 1 := by
      apply roundTo_of_scaled 53 (-1022) 1023 _ 1 0 <;> norm_num [abs_lt]
    have h2 : toDouble 16777217 = .finite 16777217 := by
      apply roundTo_of_scaled 53 (-1022) 1023 _ 16777217 0 <;> norm_num [abs_lt]
    rw [e, h1, h2]
    simp only [mulDouble, one_mul]
    rw [h2]
    simp only [addDouble, zero_add]
    rw [h2]
    apply roundTo_of_tie_even 24 (-126) 127 _ _ 24 1 8388608 <;> norm_num
  refine ⟨rfl, ?_, ?_, hamp1, hamp2, hfreq, ?_⟩
  · rw [z11]
    norm_num
  · rw [z12]
    norm_num
  · rw [hfreq, hx1, hdx]
    intro h
    injection h with h
    norm_num at h

/-! ## The pitch contour -/

/-- What `get_spectrogram` returns when the analyzer returns a spectrogram. -/
theorem get_spectrogram_ok (Sound_to_Spectrogram : SpectrogramAnalyzer) (g : Globals)
    (sound : Sound) (spectrogram : Spectrogram) (ga : SpectrogramArgs)
    (hs : g.g_autoSound = some sound)
    (hsp : Sound_to_Spectrogram sound (3 / 100) 8000 0 0 .GAUSSIAN 1 1
      = .ok (some spectrogram)) :
    get_spectrogram Sound_to_Spectrogram g ga
      = { numTimes := spectrogram.nx
          numFreqs := spectrogram.ny
          times := forLoop 0 spectrogram.nx
            (fun i acc => acc.store i (spectrogram.x1 + i * spectrogram.dx)) ga.times
          frequencies := forLoop 0 spectrogram.ny
            (fun i acc => acc.store i (spectrogram.y1 + i * spectrogram.dy)) ga.frequencies
          values := ga.values.storeAll (spectrogramStores spectrogram) } := by
  unfold get_spectrogram
  rw [hs]
  simp only [hsp]
  rw [forLoop_forLoop_store]
  rfl

theorem spectrogramStores_fst (spectrogram : Spectrogram) :
    (spectrogramStores spectrogram).map Prod.fst
      = (loopIndices 0 spectrogram.nx).flatMap (fun ix =>
          (loopIndices 0 spectrogram.ny).map (fun iy => iy * spectrogram.nx + ix)) := by
  unfold spectrogramStores
  rw [List.map_flatMap]
  simp only [List.map_map]
  rfl

theorem spectrogramStores_nodup (spectrogram : Spectrogram) :
    ((spectrogramStores spectrogram).map Prod.fst).Nodup := by
  rw [spectrogramStores_fst, List.nodup_flatMap]
  constructor
  · intro ix hix
    rw [mem_loopIndices] at hix
    refine List.Nodup.map ?_ (nodup_loopIndices 0 spectrogram.ny)
    intro a b hab
    have h1 : a * spectrogram.nx = b * spectrogram.nx := by
      have h2 : a * spectrogram.nx + ix = b * spectrogram.nx + ix := hab
      omega
    exact Int.eq_of_mul_eq_mul_right (by omega) h1
  · refine (nodup_loopIndices 0 spectrogram.nx).pairwise_of_forall_ne ?_
    intro a ha b hb hab x hxa hxb
    rw [mem_loopIndices] at ha hb
    obtain ⟨ya, _, hya⟩ := List.mem_map.1 hxa
    obtain ⟨yb, _, hyb⟩ := List.mem_map.1 hxb
    have h1 : (a + ya * spectrogram.nx) % spectrogram.nx = a := by
      rw [Int.add_mul_emod_self]
      exact Int.emod_eq_of_lt ha.1 ha.2
    have h2 : (b + yb * spectrogram.nx) % spectrogram.nx = b := by
      rw [Int.add_mul_emod_self]
      exact Int.emod_eq_of_lt hb.1 hb.2
    have h3 : a + ya * spectrogram.nx = b + yb * spectrogram.nx := by
      have e1 : ya * spectrogram.nx + a = x := hya
      have e2 : yb * spectrogram.nx + b = x := hyb
      omega
    rw [h3, h2] at h1
    exact hab h1.symm

theorem mem_spectrogramStores_fst (spectrogram : Spectrogram) (k : Int)
    (hnx : 0 ≤ spectrogram.nx) :
    k ∈ (spectrogramStores spectrogram).map Prod.fst
      ↔ 0 ≤ k ∧ k < spectrogram.nx * spectrogram.ny := by
  rw [spectrogramStores_fst, List.mem_flatMap]
  constructor
  · rintro ⟨ix, hix, hk⟩
    obtain ⟨iy, hiy, rfl⟩ := List.mem_map.1 hk
    rw [mem_loopIndices] at hix hiy
    have h1 : 0 ≤ iy * spectrogram.nx := Int.mul_nonneg hiy.1 hnx
    have h2 : (iy + 1) * spectrogram.nx ≤ spectrogram.ny * spectrogram.nx :=
      Int.mul_le_mul_of_nonneg_right (by omega) hnx
    have h3 : (iy + 1) * spectrogram.nx = iy * spectrogram.nx + spectrogram.nx := by ring
    have h4 : spectrogram.ny * spectrogram.nx = spectrogram.nx * spectrogram.ny := by ring
    constructor
    · omega
    · omega
  · rintro ⟨h0, h1⟩
    have hpos : 0 < spectrogram.nx := by
      by_contra hneg
      have hz : spectrogram.nx = 0 := by omega
      rw [hz, Int.zero_mul] at h1
      omega
    refine ⟨k % spectrogram.nx, ?_, ?_⟩
    · rw [mem_loopIndices]
      exact ⟨Int.emod_nonneg k (by omega), Int.emod_lt_of_pos k hpos⟩
    · refine List.mem_map.2 ⟨k / spectrogram.nx, ?_, ?_⟩
      · rw [mem_loopIndices]
        refine ⟨Int.ediv_nonneg h0 hnx, Int.ediv_lt_of_lt_mul hpos ?_⟩
        rw [Int.mul_comm]
        exact h1
      · have h := Int.emod_add_ediv k spectrogram.nx
        rw [Int.mul_comm] at h
        omega

/-- C1. For every spectrogram the analyzer returns, with `nx >= 0` time frames and `ny`
frequency bins, `get_spectrogram` reports `numTimes = nx` and `numFreqs = ny` and leaves the
values frequency-major: for every `timeIndex` in `0..nx-1` and `freqIndex` in `0..ny-1`,
`values[freqIndex*numTimes + timeIndex]` is the cell `z[freqIndex+1][timeIndex+1]` of the
spectrogram.  Every offset in `0..nx*ny-1` is stored to exactly once, and no other offset is
stored to or changed. -/
theorem get_spectrogram_frequency_major (Sound_to_Spectrogram : SpectrogramAnalyzer)
    (g : Globals) (sound : Sound) (spectrogram : Spectrogram) (ga : SpectrogramArgs)
    (hs : g.g_autoSound = some sound)
    (hsp : Sound_to_Spectrogram sound (3 / 100) 8000 0 0 .GAUSSIAN 1 1
      = .ok (some spectrogram))
    (hnx : 0 ≤ spectrogram.nx) :
    (get_spectrogram Sound_to_Spectrogram g ga).numTimes = spectrogram.nx ∧
    (get_spectrogram Sound_to_Spectrogram g ga).numFreqs = spectrogram.ny ∧
    (∀ timeIndex freqIndex : Int, 0 ≤ timeIndex → timeIndex < spectrogram.nx →
      0 ≤ freqIndex → freqIndex < spectrogram.ny →
      (get_spectrogram Sound_to_Spectrogram g ga).values.cell
          (freqIndex * (get_spectrogram Sound_to_Spectrogram g ga).numTimes + timeIndex)
        = spectrogram.z (freqIndex + 1) (timeIndex + 1)) ∧
    (∀ k : Int, 0 ≤ k → k < spectrogram.nx * spectrogram.ny →
      (get_spectrogram Sound_to_Spectrogram g ga).values.stored.count k
        = ga.values.stored.count k + 1) ∧
    (∀ k : Int, ¬ (0 ≤ k ∧ k < spectrogram.nx * spectrogram.ny) →
      (get_spectrogram Sound_to_Spectrogram g ga).values.stored.count k
        = ga.values.stored.count k ∧
      (get_spectrogram Sound_to_Spectrogram g ga).values.cell k = ga.values.cell k) := by
  rw [get_spectrogram_ok Sound_to_Spectrogram g sound spectrogram ga hs hsp]
  refine ⟨rfl, rfl, ?_, ?_, ?_⟩
  · intro timeIndex freqIndex ht0 ht1 hf0 hf1
    apply storeAll_cell_of_mem _ _ _ _ (spectrogramStores_nodup spectrogram)
    unfold spectrogramStores
    rw [List.mem_flatMap]
    refine ⟨timeIndex, (mem_loopIndices _ _ _).2 ⟨ht0, ht1⟩, ?_⟩
    exact List.mem_map.2 ⟨freqIndex, (mem_loopIndices _ _ _).2 ⟨hf0, hf1⟩, rfl⟩
  · intro k h0 h1
    simp only []
    rw [storeAll_stored, List.count_append,
      List.count_eq_one_of_mem (spectrogramStores_nodup spectrogram)
        ((mem_spectrogramStores_fst spectrogram k hnx).2 ⟨h0, h1⟩)]
  · intro k hk
    have hmem : k ∉ (spectrogramStores spectrogram).map Prod.fst :=
      fun h => hk ((mem_spectrogramStores_fst spectrogram k hnx).1 h)
    simp only []
    rw [storeAll_stored, List.count_append, List.count_eq_zero.2 hmem,
      storeAll_cell_of_not_mem _ _ _ hmem]
    exact ⟨rfl, rfl⟩

/-- C1, for a spectrogram of three time frames and two frequency bins: the cell of
frequency bin 2 and time frame 3 is at offset `1 * 3 + 2 = 5`. -/
theorem get_spectrogram_frequency_major_witness :
    exampleLoaded.g_autoSound = some exampleSound ∧
    (0 : Int) ≤ exampleSpectrogram.nx ∧
    (get_spectrogram (fun _ _ _ _ _ _ _ _ => .ok (some exampleSpectrogram)) exampleLoaded
        { times := freshArray, frequencies := freshArray, values := freshArray
          numTimes := 0, numFreqs := 0 }).values.cell 5 = 23 :=
  ⟨rfl, by decide,
    ((get_spectrogram_frequency_major (fun _ _ _ _ _ _ _ _ => .ok (some exampleSpectrogram))
      exampleLoaded exampleSound exampleSpectrogram
      { times := freshArray, frequencies := freshArray, values := freshArray
        numTimes := 0, numFreqs := 0 } rfl rfl (by decide)).2.2.1 2 1
      (by decide) (by decide) (by decide) (by decide)).trans
      (by norm_num [exampleSpectrogram])⟩

end Parselmouth
